import Mathlib

/-!
The proof-of-sum relation of delen-circuit.

A shallow embedding of `circuit/util.go` and `circuit/proof_of_sum.go`.

* A `frontend.Variable` is its value under the assignment, the canonical
  representative in `[0, fieldModulus)` of an element of the BN254 scalar
  field (the field `main.go` compiles the circuit over).
* A `uints.U8` is its `Val`, a natural number.
* `api.Add` and `api.Mul` are arithmetic modulo `fieldModulus`; with the R1CS
  builder they only build linear expressions and leave the constraint system
  untouched, so they are pure functions here.
* Every other call on `api` or on a gadget appends an `Op` to the constraint
  system, which is the list of the operations emitted so far.
* Go run-time panics (index or slice out of range) are the error
  `BuildError.outOfRange`.
-/

namespace Delen

/-! ## Field arithmetic -/

/-- Order of the BN254 scalar field, `ecc.BN254.ScalarField()`. -/
def fieldModulus : Nat :=
  21888242871839275222246405745257275088548364400416034343698204186575808495617

/-- The call `api.Add(a, b)`. -/
def apiAdd (a b : Nat) : Nat := (a + b) % fieldModulus

/-- The call `api.Mul(a, b)`. -/
def apiMul (a b : Nat) : Nat := (a * b) % fieldModulus

/-- The call `api.Sub(a, b)`. -/
def apiSub (a b : Nat) : Nat := (a % fieldModulus + (fieldModulus - b % fieldModulus)) % fieldModulus

/-- The variadic call `api.Add(i1, i2, in...)`: the operands are added from left to right. -/
def apiAddN (i1 i2 : Nat) (rest : List Nat) : Nat := rest.foldl apiAdd (apiAdd i1 i2)

/-- Number of binary digits of `n`, by halving; `fuel` bounds the number of halvings. -/
def bitLenAux : Nat → Nat → Nat
  | 0, _ => 0
  | fuel + 1, n => if n = 0 then 0 else bitLenAux fuel (n / 2) + 1

/-- The method `big.Int.BitLen`: the length of `n` in bits, `0` for `n = 0`. -/
def bitLen (n : Nat) : Nat := bitLenAux n n

/-! ## Constants of `proof_of_sum.go` -/

def LimitSeconds : Nat := 10 * 60

abbrev SumMaxItems : Nat := 2

/-! ## Errors -/

/-- What a circuit-building function can fail with: the three `fmt.Errorf` of the source, an
error returned by an external gadget constructor, and a Go run-time panic on an index or a
slice bound. -/
inductive BuildError where
  | invalidPayloadHashLength
  | invalidSigLength
  | invalidPubkeyLength
  | gadgetInit
  | outOfRange
  deriving DecidableEq, Repr

deriving instance DecidableEq for Except

/-- Go index expression `xs[i]`. -/
def indexAt (xs : List Nat) (i : Nat) : Except BuildError Nat :=
  match xs[i]? with
  | some v => .ok v
  | none => .error .outOfRange

/-- Go assignment `xs[i] = v`. -/
def setAt (xs : List Nat) (i : Nat) (v : Nat) : Except BuildError (List Nat) :=
  if i < xs.length then .ok (xs.set i v) else .error .outOfRange

/-- Go slice expression `xs[lo:hi]`. -/
def sliceOf (xs : List Nat) (lo hi : Nat) : Except BuildError (List Nat) :=
  if lo ≤ hi ∧ hi ≤ xs.length then .ok ((xs.take hi).drop lo) else .error .outOfRange

/-- Go slice expression `xs[lo:]`. -/
def sliceFrom (xs : List Nat) (lo : Nat) : Except BuildError (List Nat) :=
  sliceOf xs lo xs.length

/-! ## `util.go`: byte packing -/

/-- The right-hand side of the assignment in the loop of `ByteArrayToLimbs`: the eight bytes
`array[8*i] .. array[8*i+7]` packed big-endian. The operands are evaluated left to right. -/
def limbAt (array : List Nat) (i : Nat) : Except BuildError Nat := do
  let m0 := apiMul (1 <<< 0) (← indexAt array (8 * i + 7))
  let m1 := apiMul (1 <<< 8) (← indexAt array (8 * i + 6))
  let m2 := apiMul (1 <<< 16) (← indexAt array (8 * i + 5))
  let m3 := apiMul (1 <<< 24) (← indexAt array (8 * i + 4))
  let m4 := apiMul (1 <<< 32) (← indexAt array (8 * i + 3))
  let m5 := apiMul (1 <<< 40) (← indexAt array (8 * i + 2))
  let m6 := apiMul (1 <<< 48) (← indexAt array (8 * i + 1))
  let m7 := apiMul (1 <<< 56) (← indexAt array (8 * i + 0))
  pure (apiAddN m0 m1 [m2, m3, m4, m5, m6, m7])

/-- The loop `for i := range ret` of `ByteArrayToLimbs`, over the indices still to visit. -/
def limbsLoop (array : List Nat) : List Nat → List Nat → Except BuildError (List Nat)
  | [], ret => .ok ret
  | i :: rest, ret => do
    let v ← limbAt array i
    let ret1 ← setAt ret (ret.length - 1 - i) v
    limbsLoop array rest ret1

/-- The function `ByteArrayToLimbs` of `util.go`. -/
def ByteArrayToLimbs (array : List Nat) : Except BuildError (List Nat) :=
  let ret := List.replicate ((array.length + 7) / 8) 0
  let ap := List.replicate (8 * ret.length - array.length) 0
  let array := ap ++ array
  limbsLoop array (List.range ret.length) ret

/-! ## The constraint system and the external gadgets -/

/-- The two emulated fields of secp256k1 that `emulated.NewField` is called for. -/
inductive EmulatedField where
  | Secp256k1Fp
  | Secp256k1Fr
  deriving DecidableEq, Repr

/-- One operation emitted into the constraint system by a call on `api` or on a gadget of the
gnark standard library, with the values of its operands under the assignment. -/
inductive Op where
  /-- Constructor `uints.New[uints.U64](api)`. -/
  | uintsNew
  /-- Call `uapi.ValueOf(v)`: decomposition of `v` into eight bytes. -/
  | valueOf (v : Nat)
  /-- Constructor `sha2.New(api)`. -/
  | sha2New
  /-- Call `hasher.Sum()` of the SHA-256 gadget on the bytes written so far. -/
  | sha2Sum (msg : List Nat)
  /-- Constructor `emulated.NewField[T](api)`. -/
  | newField (t : EmulatedField)
  /-- Call `efp.NewElement(limbs)`. -/
  | newElement (t : EmulatedField) (limbs : List Nat)
  /-- Call `pubkey.Verify(api, params, msg, signature)`, operands given by their limbs. -/
  | ecdsaVerify (pubX pubY msg sigR sigS : List Nat)
  /-- Constructor `sha3.NewLegacyKeccak256(api)`. -/
  | keccakNew
  /-- Call `keccak.Sum()` on the bytes written so far. -/
  | keccakSum (msg : List Nat)
  /-- Call `api.ToBinary(v, n)`. -/
  | toBinary (v n : Nat)
  /-- Call `api.AssertIsEqual(a, b)`. -/
  | assertIsEqual (a b : Nat)
  /-- Constructor `cmp.NewBoundedComparator(api, absDiffUpp, false)`. -/
  | newBoundedComparator (absDiffUpp : Nat)
  /-- Call `AssertIsLessEq(a, b)` on a comparator whose bound has `absDiffUppBitLen` bits. -/
  | assertIsLessEq (absDiffUppBitLen a b : Nat)
  deriving DecidableEq, Repr

/-- The state of the constraint system: the operations emitted so far, oldest first. -/
abbrev ConstraintSystem := List Op

/-- The gnark gadgets the circuit is built from, taken as given: the two hash functions on
byte strings, the ECDSA verification relation on limb representations, whether each
constructor returns an error, and the shape of the digests (32 values, each a byte). -/
structure Gadgets where
  sha256 : List Nat → List Nat
  keccak256 : List Nat → List Nat
  ecdsaVerify : List Nat → List Nat → List Nat → List Nat → List Nat → Bool
  uintsNewFails : Bool
  sha2NewFails : Bool
  keccakNewFails : Bool
  newFieldFails : Bool
  sha256_length : ∀ m, (sha256 m).length = 32
  sha256_byte : ∀ m, ∀ b ∈ sha256 m, b < 256
  keccak256_length : ∀ m, (keccak256 m).length = 32
  keccak256_byte : ∀ m, ∀ b ∈ keccak256 m, b < 256

/-- All four gadget constructors return a nil error. -/
def Gadgets.constructorsSucceed (env : Gadgets) : Bool :=
  !env.uintsNewFails && !env.sha2NewFails && !env.keccakNewFails && !env.newFieldFails

/-- A circuit-building computation: it reads the constraint system, returns a value or an
error, and leaves the constraint system with what it has emitted appended. -/
def Builder (α : Type) : Type := ConstraintSystem → Except BuildError α × ConstraintSystem

namespace Builder

/-- Return without emitting. -/
def ret {α : Type} (a : α) : Builder α := fun cs => (.ok a, cs)

/-- Sequencing; an error stops the computation, keeping what was emitted before it. -/
def andThen {α β : Type} (m : Builder α) (f : α → Builder β) : Builder β := fun cs =>
  match m cs with
  | (.ok a, cs1) => f a cs1
  | (.error e, cs1) => (.error e, cs1)

instance : Monad Builder where
  pure := ret
  bind := andThen

/-- Go `return err`. -/
def fail {α : Type} (e : BuildError) : Builder α := fun cs => (.error e, cs)

/-- Append one operation to the constraint system. -/
def emit (op : Op) : Builder Unit := fun cs => (.ok (), cs ++ [op])

/-- A computation that does not touch the constraint system. -/
def lift {α : Type} : Except BuildError α → Builder α
  | .ok a => ret a
  | .error e => fail e

end Builder

/-! ### Decompositions computed by hints -/

/-- The hint behind `api.ToBinary(v, n)`: bit `i` of `v` for `i < n`, least significant
first. -/
def nBits (v n : Nat) : List Nat := (List.range n).map (fun i => v / 2 ^ i % 2)

/-- The value `Σ bits[i] * 2^i` that `api.ToBinary` asserts equal to its operand. -/
def fromBits : List Nat → Nat
  | [] => 0
  | b :: rest => b + 2 * fromBits rest

/-- The hint behind `uapi.ValueOf(v)`: `n` times the low byte, then a shift right by 8. -/
def toBytes : Nat → Nat → List Nat
  | 0, _ => []
  | n + 1, v => v % 256 :: toBytes n (v / 256)

/-- The value `Σ bytes[i] * 256^i` that `uapi.ValueOf` asserts equal to its operand. -/
def fromBytes : List Nat → Nat
  | [] => 0
  | b :: rest => b + 256 * fromBytes rest

/-- Whether an emitted operation is satisfied under the assignment. The decompositions hold
when the recomposed value equals the operand in the field; `AssertIsLessEq(a, b)` is the range
check of `b - a` on the comparator's number of bits; `NewElement` enforces the limb width of
64 bits; the ECDSA assertion is the gadget's relation. Constructors and hash evaluations
assert nothing about their inputs. -/
def Op.holds (env : Gadgets) : Op → Bool
  | .valueOf v => fromBytes (toBytes 8 v) % fieldModulus == v % fieldModulus
  | .toBinary v n => fromBits (nBits v n) % fieldModulus == v % fieldModulus
  | .assertIsEqual a b => a % fieldModulus == b % fieldModulus
  | .assertIsLessEq k a b => apiSub b a < 2 ^ k
  | .newElement _ limbs => limbs.all (fun l => l < 2 ^ 64)
  | .ecdsaVerify pubX pubY msg sigR sigS => env.ecdsaVerify pubX pubY msg sigR sigS
  | _ => true

/-! ### The `api` and gadget calls -/

/-- The call `api.ToBinary(v, n)`. -/
def apiToBinary (v n : Nat) : Builder (List Nat) := do
  Builder.emit (.toBinary v n)
  pure (nBits v n)

/-- The call `api.AssertIsEqual(a, b)`. -/
def apiAssertIsEqual (a b : Nat) : Builder Unit := Builder.emit (.assertIsEqual a b)

/-- The type `uints.BinaryField[uints.U64]`. -/
structure BinaryField where
  deriving DecidableEq, Repr

/-- The constructor `uints.New[uints.U64](api)`. -/
def uintsNew (env : Gadgets) : Builder BinaryField :=
  if env.uintsNewFails then Builder.fail .gadgetInit
  else do
    Builder.emit .uintsNew
    pure {}

/-- The call `uapi.ValueOf(v)`: a `uints.U64`, the eight bytes of `v`, lowest first. -/
def BinaryField.ValueOf (_uapi : BinaryField) (v : Nat) : Builder (List Nat) := do
  Builder.emit (.valueOf v)
  pure (toBytes 8 v)

/-- The call `uapi.UnpackLSB(a)`: the bytes of `a`, least significant first. -/
def BinaryField.UnpackLSB (_uapi : BinaryField) (a : List Nat) : List Nat := a

/-- A hasher gadget: the bytes written to it so far. -/
structure Hasher where
  written : List Nat
  deriving DecidableEq, Repr

/-- The method `Write` of a hasher. -/
def Hasher.Write (h : Hasher) (data : List Nat) : Hasher := { written := h.written ++ data }

/-- The constructor `sha2.New(api)`. -/
def sha2New (env : Gadgets) : Builder Hasher :=
  if env.sha2NewFails then Builder.fail .gadgetInit
  else do
    Builder.emit .sha2New
    pure { written := [] }

/-- The method `Sum` of the SHA-256 hasher. -/
def Hasher.sha2Sum (env : Gadgets) (h : Hasher) : Builder (List Nat) := do
  Builder.emit (.sha2Sum h.written)
  pure (env.sha256 h.written)

/-- The constructor `sha3.NewLegacyKeccak256(api)`. -/
def NewLegacyKeccak256 (env : Gadgets) : Builder Hasher :=
  if env.keccakNewFails then Builder.fail .gadgetInit
  else do
    Builder.emit .keccakNew
    pure { written := [] }

/-- The method `Sum` of the Keccak-256 hasher. -/
def Hasher.keccakSum (env : Gadgets) (h : Hasher) : Builder (List Nat) := do
  Builder.emit (.keccakSum h.written)
  pure (env.keccak256 h.written)

/-- The type `emulated.Element[T]`: the limbs, least significant first. -/
structure Element where
  Limbs : List Nat
  deriving DecidableEq, Repr

/-- The integer an emulated element stands for, with limbs of 64 bits. -/
def limbsValue : List Nat → Nat
  | [] => 0
  | l :: rest => l + 2 ^ 64 * limbsValue rest

/-- The type `emulated.Field[T]`. -/
structure EmulatedFieldApi where
  t : EmulatedField
  deriving DecidableEq, Repr

/-- The constructor `emulated.NewField[T](api)`. -/
def NewField (env : Gadgets) (t : EmulatedField) : Builder EmulatedFieldApi :=
  if env.newFieldFails then Builder.fail .gadgetInit
  else do
    Builder.emit (.newField t)
    pure { t := t }

/-- The call `efp.NewElement(limbs)` on a slice of variables. -/
def EmulatedFieldApi.NewElement (efp : EmulatedFieldApi) (limbs : List Nat) : Builder Element := do
  Builder.emit (.newElement efp.t limbs)
  pure { Limbs := limbs }

/-- The type `ecdsa.Signature[emulated.Secp256k1Fr]`. -/
structure Signature where
  R : Element
  S : Element
  deriving DecidableEq, Repr

/-- The type `ecdsa.PublicKey[emulated.Secp256k1Fp, emulated.Secp256k1Fr]`. -/
structure PublicKey where
  X : Element
  Y : Element
  deriving DecidableEq, Repr

/-- The call `pubkey.Verify(api, params, msg, signature)`. -/
def PublicKey.Verify (pubkey : PublicKey) (msg : Element) (signature : Signature) :
    Builder Unit :=
  Builder.emit (.ecdsaVerify pubkey.X.Limbs pubkey.Y.Limbs msg.Limbs signature.R.Limbs
    signature.S.Limbs)

/-- The type `cmp.BoundedComparator`, built with `allowFailWithOverflow = false`. -/
structure BoundedComparator where
  absDiffUppBitLen : Nat
  deriving DecidableEq, Repr

/-- The constructor `cmp.NewBoundedComparator(api, absDiffUpp, false)`. -/
def NewBoundedComparator (absDiffUpp : Nat) : Builder BoundedComparator := do
  Builder.emit (.newBoundedComparator absDiffUpp)
  pure { absDiffUppBitLen := bitLen absDiffUpp }

/-- The method `AssertIsLessEq(a, b)` of a bounded comparator. -/
def BoundedComparator.AssertIsLessEq (bc : BoundedComparator) (a b : Nat) : Builder Unit :=
  Builder.emit (.assertIsLessEq bc.absDiffUppBitLen a b)

/-! ## `util.go`: reconstruction of the ECDSA operands -/

/-- The function `BytesToHash` of `util.go`. -/
def BytesToHash (env : Gadgets) (input : List Nat) : Builder Element := do
  let msghash ← Builder.lift (ByteArrayToLimbs input)
  let efp ← NewField env .Secp256k1Fr
  efp.NewElement msghash

/-- The function `BytesToSig` of `util.go`. -/
def BytesToSig (env : Gadgets) (input : List Nat) : Builder Signature :=
  if input.length ≠ 64 then Builder.fail .invalidSigLength
  else do
    let r ← Builder.lift (do ByteArrayToLimbs (← sliceOf input 0 32))
    let s ← Builder.lift (do ByteArrayToLimbs (← sliceFrom input 32))
    let efp ← NewField env .Secp256k1Fr
    let sigR ← efp.NewElement r
    let sigS ← efp.NewElement s
    pure { R := sigR, S := sigS }

/-- The function `BytesToPubkey` of `util.go`. -/
def BytesToPubkey (env : Gadgets) (input : List Nat) : Builder PublicKey :=
  if input.length ≠ 65 then Builder.fail .invalidPubkeyLength
  else do
    let x ← Builder.lift (do ByteArrayToLimbs (← sliceOf input 1 33))
    let y ← Builder.lift (do ByteArrayToLimbs (← sliceFrom input 33))
    let efp ← NewField env .Secp256k1Fp
    let pubX ← efp.NewElement x
    let pubY ← efp.NewElement y
    pure { X := pubX, Y := pubY }

/-! ## `proof_of_sum.go` -/

/-- The function `hashSumInput`. -/
def hashSumInput (env : Gadgets) (uapi : BinaryField) (payloadHash : List Nat)
    (timestamp value : Nat) : Builder (List Nat) := do
  let hasher ← sha2New env
  let hasher := hasher.Write (← Builder.lift (sliceFrom payloadHash 0))
  let hasher := hasher.Write (uapi.UnpackLSB (← uapi.ValueOf timestamp))
  let hasher := hasher.Write (uapi.UnpackLSB (← uapi.ValueOf value))
  hasher.sha2Sum env

/-- The function `ecdsaVerification`. -/
def ecdsaVerification (env : Gadgets) (ha sig pub : List Nat) : Builder Unit := do
  let msg ← BytesToHash env ha
  let pubkey ← BytesToPubkey env pub
  let signature ← BytesToSig env sig
  pubkey.Verify msg signature

/-- The inner loop `for j := 0; j < 8; j++` of `validateSig`, over the `j` still to visit. -/
def assertBitsLoop (dl addrBits : List Nat) (i : Nat) : List Nat → Builder Unit
  | [] => pure ()
  | j :: rest => do
    let a ← Builder.lift (indexAt dl j)
    let b ← Builder.lift (indexAt addrBits (i * 8 + j))
    apiAssertIsEqual a b
    assertBitsLoop dl addrBits i rest

/-- The outer loop `for i := 19; i >= 0; i--` of `validateSig`, over the `i` still to
visit. -/
def addressLoop (lower20Bytes addrBits : List Nat) : List Nat → Builder Unit
  | [] => pure ()
  | i :: rest => do
    let dl ← apiToBinary (← Builder.lift (indexAt lower20Bytes (19 - i))) 8
    assertBitsLoop dl addrBits i (List.range 8)
    addressLoop lower20Bytes addrBits rest

/-- The address check of `validateSig`, from the comment `validate eth address` to the end
of the loops. -/
def validateAddress (env : Gadgets) (PubBytes : List Nat) (ethAddr : Nat) : Builder Unit := do
  let keccak ← NewLegacyKeccak256 env
  let keccak := keccak.Write (← Builder.lift (sliceFrom PubBytes 1))
  let hashBits ← keccak.keccakSum env
  let lower20Bytes ← Builder.lift (sliceFrom hashBits 12)
  let addrBits ← apiToBinary ethAddr 160
  addressLoop lower20Bytes addrBits (List.range 20).reverse

/-- The method `validateSig` of `ProofOfSumCircuit`. -/
def validateSig (env : Gadgets) (PayloadHash : List Nat) (Timestamp Value : Nat)
    (SigBytes PubBytes : List Nat) (ethAddr : Nat) : Builder Unit :=
  if PayloadHash.length ≠ 32 then Builder.fail .invalidPayloadHashLength
  else do
    let uapi ← uintsNew env
    let lastHash ← hashSumInput env uapi PayloadHash Timestamp Value
    ecdsaVerification env lastHash SigBytes PubBytes
    validateAddress env PubBytes ethAddr

/-- The type `ProofOfSumCircuit` under an assignment. -/
structure ProofOfSumCircuit where
  PayloadHashs : Mathlib.Vector (Mathlib.Vector Nat 32) SumMaxItems
  Timestamps : Mathlib.Vector Nat SumMaxItems
  Values : Mathlib.Vector Nat SumMaxItems
  SigBytes : Mathlib.Vector (Mathlib.Vector Nat 64) SumMaxItems
  PubBytes : Mathlib.Vector (Mathlib.Vector Nat 65) SumMaxItems
  StartTime : Nat
  Threshold : Nat
  EthAddress : Nat

/-- The loop `for i := 0; i < SumMaxItems; i++` of `Define`, over the `i` still to visit;
it returns the running sum. -/
def defineLoop (env : Gadgets) (c : ProofOfSumCircuit) (timeCmp : BoundedComparator)
    (timeUpper : Nat) : List (Fin SumMaxItems) → Nat → Builder Nat
  | [], sum => pure sum
  | i :: rest, sum => do
    validateSig env (c.PayloadHashs.get i).toList (c.Timestamps.get i) (c.Values.get i)
      (c.SigBytes.get i).toList (c.PubBytes.get i).toList c.EthAddress
    timeCmp.AssertIsLessEq c.StartTime (c.Timestamps.get i)
    timeCmp.AssertIsLessEq (c.Timestamps.get i) timeUpper
    defineLoop env c timeCmp timeUpper rest (apiAdd sum (c.Values.get i))

/-- The method `Define` of `ProofOfSumCircuit`. -/
def Define (env : Gadgets) (c : ProofOfSumCircuit) : Builder Unit := do
  let sum := 0
  let timeUpper := apiAdd c.StartTime LimitSeconds
  let timeCmp ← NewBoundedComparator (LimitSeconds * 2)
  let sum ← defineLoop env c timeCmp timeUpper (List.finRange SumMaxItems) sum
  let sumCmp ← NewBoundedComparator (1 <<< 62)
  sumCmp.AssertIsLessEq c.Threshold sum

/-! ## Reference values used in the statements -/

/-- Big-endian integer of a byte sequence `a` of length `n`: `Σ a[j] * 256^(n-1-j)`. -/
def beValue : List Nat → Nat
  | [] => 0
  | b :: rest => b * 256 ^ rest.length + beValue rest

/-- The sequence `a` left-padded with zero bytes to the next multiple of 8. -/
def padded (array : List Nat) : List Nat :=
  List.replicate (8 * ((array.length + 7) / 8) - array.length) 0 ++ array

/-- The operations of one round of the outer loop of the address check: the decomposition of
the digest byte `d` and its eight bit equalities against address bits `8i .. 8i+7`. -/
def addressRoundOps (d ethAddr i : Nat) : List Op :=
  Op.toBinary d 8 :: (List.range 8).map (fun j =>
    Op.assertIsEqual (d / 2 ^ j % 2) (ethAddr / 2 ^ (i * 8 + j) % 2))

/-- The operations emitted by the address check of `validateSig`: the Keccak-256 gadget on
`PubBytes[1:]`, the decomposition of `ethAddr` into 160 bits, and for `i = 19, .., 0` the round
matching digest byte `12 + (19 - i)` against address bits `8i .. 8i+7`. -/
def addressOps (env : Gadgets) (PubBytes : List Nat) (ethAddr : Nat) : List Op :=
  [Op.keccakNew, Op.keccakSum (PubBytes.drop 1), Op.toBinary ethAddr 160] ++
    (List.range 20).reverse.flatMap (fun i =>
      addressRoundOps (((env.keccak256 (PubBytes.drop 1)).drop 12).getD (19 - i) 0) ethAddr i)

/-- A concrete environment to evaluate the definitions in: stand-in digests of 32 bytes that
depend on the message, every ECDSA check accepted, no constructor failing. -/
def sampleGadgets : Gadgets where
  sha256 := fun m => (List.range 32).map (fun i => (m.length + i) % 256)
  keccak256 := fun m => (List.range 32).map (fun i => (m.sum + i) % 256)
  ecdsaVerify := fun _ _ _ _ _ => true
  uintsNewFails := false
  sha2NewFails := false
  keccakNewFails := false
  newFieldFails := false
  sha256_length := by intro m; simp
  sha256_byte := by
    intro m b hb
    simp only [List.mem_map, List.mem_range] at hb
    obtain ⟨i, _, rfl⟩ := hb
    exact Nat.mod_lt _ (by decide)
  keccak256_length := by intro m; simp
  keccak256_byte := by
    intro m b hb
    simp only [List.mem_map, List.mem_range] at hb
    obtain ⟨i, _, rfl⟩ := hb
    exact Nat.mod_lt _ (by decide)

/-- The address the sample environment derives from the public key `0, 1, .., 64`: the
big-endian integer of the bytes `44, 45, .., 63`. -/
def sampleAddress : Nat := 0x2c2d2e2f303132333435363738393a3b3c3d3e3f

/-- The value the loop body of `ByteArrayToLimbs` assigns in round `i`, read off `array` with
the same field operations. -/
def packAt (array : List Nat) (i : Nat) : Nat :=
  apiAddN (apiMul (1 <<< 0) (array.getD (8 * i + 7) 0))
    (apiMul (1 <<< 8) (array.getD (8 * i + 6) 0))
    [apiMul (1 <<< 16) (array.getD (8 * i + 5) 0), apiMul (1 <<< 24) (array.getD (8 * i + 4) 0),
      apiMul (1 <<< 32) (array.getD (8 * i + 3) 0), apiMul (1 <<< 40) (array.getD (8 * i + 2) 0),
      apiMul (1 <<< 48) (array.getD (8 * i + 1) 0), apiMul (1 <<< 56) (array.getD (8 * i + 0) 0)]

/-- The limbs of a byte sequence: position `k` holds the packing of round `m - 1 - k` over the
padded sequence, `m` the number of limbs. -/
def limbsOf (array : List Nat) : List Nat :=
  (List.range ((array.length + 7) / 8)).map
    (fun k => packAt (padded array) ((array.length + 7) / 8 - 1 - k))

/-- The message `hashSumInput` writes to the SHA-256 hasher. -/
def hashMessage (payloadHash : List Nat) (timestamp value : Nat) : List Nat :=
  payloadHash ++ toBytes 8 timestamp ++ toBytes 8 value

/-- The operations emitted by `hashSumInput`. -/
def hashOps (payloadHash : List Nat) (timestamp value : Nat) : List Op :=
  [Op.sha2New, Op.valueOf timestamp, Op.valueOf value,
    Op.sha2Sum (hashMessage payloadHash timestamp value)]

/-- The operations emitted by `BytesToHash`. -/
def msgOps (ha : List Nat) : List Op :=
  [Op.newField .Secp256k1Fr, Op.newElement .Secp256k1Fr (limbsOf ha)]

/-- The operations emitted by `BytesToPubkey` on 65 bytes. -/
def pubkeyOps (pub : List Nat) : List Op :=
  [Op.newField .Secp256k1Fp, Op.newElement .Secp256k1Fp (limbsOf ((pub.take 33).drop 1)),
    Op.newElement .Secp256k1Fp (limbsOf (pub.drop 33))]

/-- The operations emitted by `BytesToSig` on 64 bytes. -/
def sigOps (sig : List Nat) : List Op :=
  [Op.newField .Secp256k1Fr, Op.newElement .Secp256k1Fr (limbsOf ((sig.take 32).drop 0)),
    Op.newElement .Secp256k1Fr (limbsOf (sig.drop 32))]

/-- The operations emitted by `ecdsaVerification` on a digest, 64 signature bytes and 65
public-key bytes. -/
def ecdsaOps (ha sig pub : List Nat) : List Op :=
  msgOps ha ++ pubkeyOps pub ++ sigOps sig ++
    [Op.ecdsaVerify (limbsOf ((pub.take 33).drop 1)) (limbsOf (pub.drop 33)) (limbsOf ha)
      (limbsOf ((sig.take 32).drop 0)) (limbsOf (sig.drop 32))]

/-- The operations emitted by a call of `validateSig` that returns nil. -/
def validateSigOps (env : Gadgets) (PayloadHash : List Nat) (Timestamp Value : Nat)
    (SigBytes PubBytes : List Nat) (ethAddr : Nat) : List Op :=
  [Op.uintsNew] ++ hashOps PayloadHash Timestamp Value ++
    ecdsaOps (env.sha256 (hashMessage PayloadHash Timestamp Value)) SigBytes PubBytes ++
    addressOps env PubBytes ethAddr

/-- The operations emitted by round `i` of the loop of `Define`. -/
def recordOps (env : Gadgets) (c : ProofOfSumCircuit) (i : Fin SumMaxItems) : List Op :=
  validateSigOps env (c.PayloadHashs.get i).toList (c.Timestamps.get i) (c.Values.get i)
      (c.SigBytes.get i).toList (c.PubBytes.get i).toList c.EthAddress ++
    [Op.assertIsLessEq (bitLen (LimitSeconds * 2)) c.StartTime (c.Timestamps.get i),
      Op.assertIsLessEq (bitLen (LimitSeconds * 2)) (c.Timestamps.get i)
        (apiAdd c.StartTime LimitSeconds)]

/-- The operations emitted by `Define` when it returns nil. -/
def defineOps (env : Gadgets) (c : ProofOfSumCircuit) : List Op :=
  [Op.newBoundedComparator (LimitSeconds * 2)] ++ recordOps env c 0 ++ recordOps env c 1 ++
    [Op.newBoundedComparator (1 <<< 62),
      Op.assertIsLessEq (bitLen (1 <<< 62)) c.Threshold
        (apiAdd (apiAdd 0 (c.Values.get 0)) (c.Values.get 1))]

/-- Whether an operation is an `AssertIsLessEq` of a bounded comparator. -/
def Op.isLessEq : Op → Bool
  | .assertIsLessEq _ _ _ => true
  | _ => false

/-- The comparator assertions among the emitted operations, in emission order. For `Define`
these are the two window assertions of record 0, the two of record 1, and the threshold
assertion. -/
def lessEqAssertions (cs : ConstraintSystem) : List Op := cs.filter Op.isLessEq

/-- The window assertions of record `i` among the operations emitted by `Define`. -/
def windowAssertions (cs : ConstraintSystem) (i : Fin SumMaxItems) : List Op :=
  ((lessEqAssertions cs).drop (2 * i.val)).take 2

/-- The threshold assertion among the operations emitted by `Define`: the comparator
assertion emitted last. -/
def thresholdAssertion (cs : ConstraintSystem) : Option Op := (lessEqAssertions cs).getLast?

/-- An assignment with the given numeric inputs; the byte inputs are the public key
`0, 1, .., 64`, zero payload hashes and zero signatures, and the address is the one the sample
environment derives from the public key. -/
def sampleCircuit (t0 t1 v0 v1 startTime threshold : Nat) : ProofOfSumCircuit where
  PayloadHashs := ⟨[⟨List.replicate 32 0, rfl⟩, ⟨List.replicate 32 0, rfl⟩], rfl⟩
  Timestamps := ⟨[t0, t1], rfl⟩
  Values := ⟨[v0, v1], rfl⟩
  SigBytes := ⟨[⟨List.replicate 64 0, rfl⟩, ⟨List.replicate 64 0, rfl⟩], rfl⟩
  PubBytes := ⟨[⟨List.range 65, rfl⟩, ⟨List.range 65, rfl⟩], rfl⟩
  StartTime := startTime
  Threshold := threshold
  EthAddress := sampleAddress

/-- The 8-byte little-endian encoding of `x`, least significant byte first. -/
def LE8 (x : Nat) : List Nat := (List.range 8).map (fun i => x / 256 ^ i % 256)

/-- The 8-byte big-endian encoding of `x`, most significant byte first. -/
def BE8 (x : Nat) : List Nat := (List.range 8).map (fun i => x / 256 ^ (7 - i) % 256)

/-- Whether a builder result is an error. -/
def isError {α : Type} : Except BuildError α → Bool
  | .ok _ => false
  | .error _ => true

/-- The kind of an emitted operation: which call emitted it and its structural parameters
(field, bit count, comparator bound), without the values of its operands. -/
inductive OpKind where
  | uintsNew
  | valueOf
  | sha2New
  | sha2Sum
  | newField (t : EmulatedField)
  | newElement (t : EmulatedField)
  | ecdsaVerify
  | keccakNew
  | keccakSum
  | toBinary (n : Nat)
  | assertIsEqual
  | newBoundedComparator (absDiffUpp : Nat)
  | assertIsLessEq (absDiffUppBitLen : Nat)
  deriving DecidableEq, Repr

/-- The kind of an operation. -/
def Op.kind : Op → OpKind
  | .uintsNew => .uintsNew
  | .valueOf _ => .valueOf
  | .sha2New => .sha2New
  | .sha2Sum _ => .sha2Sum
  | .newField t => .newField t
  | .newElement t _ => .newElement t
  | .ecdsaVerify _ _ _ _ _ => .ecdsaVerify
  | .keccakNew => .keccakNew
  | .keccakSum _ => .keccakSum
  | .toBinary _ n => .toBinary n
  | .assertIsEqual _ _ => .assertIsEqual
  | .newBoundedComparator b => .newBoundedComparator b
  | .assertIsLessEq k _ _ => .assertIsLessEq k

/-- The kinds of the operations of one record, in emission order: `validateSig` (commitment
hash, ECDSA verification, address check), then the lower and the upper window assertion. -/
def recordKinds : List OpKind :=
  [OpKind.uintsNew,
    OpKind.sha2New, OpKind.valueOf, OpKind.valueOf, OpKind.sha2Sum,
    OpKind.newField .Secp256k1Fr, OpKind.newElement .Secp256k1Fr,
    OpKind.newField .Secp256k1Fp, OpKind.newElement .Secp256k1Fp,
    OpKind.newElement .Secp256k1Fp,
    OpKind.newField .Secp256k1Fr, OpKind.newElement .Secp256k1Fr,
    OpKind.newElement .Secp256k1Fr,
    OpKind.ecdsaVerify,
    OpKind.keccakNew, OpKind.keccakSum, OpKind.toBinary 160] ++
  (List.range 20).reverse.flatMap
    (fun _ => OpKind.toBinary 8 :: List.replicate 8 OpKind.assertIsEqual) ++
  [OpKind.assertIsLessEq 11, OpKind.assertIsLessEq 11]

/-- The kinds of the operations of `Define`, in emission order. -/
def defineKinds : List OpKind :=
  [OpKind.newBoundedComparator 1200] ++ recordKinds ++ recordKinds ++
    [OpKind.newBoundedComparator (2 ^ 62), OpKind.assertIsLessEq 63]

/-- The assignment `c` with `StartTime` replaced by `s`. -/
def withStartTime (c : ProofOfSumCircuit) (s : Nat) : ProofOfSumCircuit :=
  { c with StartTime := s }

/-! # Theorems -/

/-! ## Field arithmetic without wrap-around -/

theorem apiAdd_small {a b : Nat} (h : a + b < 2 ^ 64) : apiAdd a b = a + b := by
  unfold apiAdd fieldModulus
  apply Nat.mod_eq_of_lt
  omega

theorem apiMul_small {a b : Nat} (h : a * b < 2 ^ 64) : apiMul a b = a * b := by
  unfold apiMul fieldModulus
  apply Nat.mod_eq_of_lt
  omega

theorem indexAt_of_lt {xs : List Nat} {i : Nat} (h : i < xs.length) :
    indexAt xs i = .ok (xs.getD i 0) := by
  simp [indexAt, List.getElem?_eq_getElem h, List.getD_eq_getElem?_getD]

/-! ## The packing loop of `ByteArrayToLimbs` -/

theorem limbAt_ok (arr : List Nat) (i : Nat) (hlen : 8 * i + 7 < arr.length) :
    limbAt arr i = .ok (packAt arr i) := by
  simp only [limbAt, packAt, indexAt_of_lt (show 8 * i + 7 < arr.length by omega),
    indexAt_of_lt (show 8 * i + 6 < arr.length by omega),
    indexAt_of_lt (show 8 * i + 5 < arr.length by omega),
    indexAt_of_lt (show 8 * i + 4 < arr.length by omega),
    indexAt_of_lt (show 8 * i + 3 < arr.length by omega),
    indexAt_of_lt (show 8 * i + 2 < arr.length by omega),
    indexAt_of_lt (show 8 * i + 1 < arr.length by omega),
    indexAt_of_lt (show 8 * i + 0 < arr.length by omega), bind, Except.bind, pure, Except.pure]

theorem getD_chunk (arr : List Nat) (i j : Nat) (hj : j < 8) :
    arr.getD (8 * i + j) 0 = ((arr.drop (8 * i)).take 8).getD j 0 := by
  simp only [List.getD_eq_getElem?_getD]
  rw [List.getElem?_take_of_lt hj, List.getElem?_drop]

theorem packAt_eq_beValue (arr : List Nat) (i : Nat) (hlen : 8 * i + 7 < arr.length)
    (hb : ∀ b ∈ arr, b < 256) :
    packAt arr i = beValue ((arr.drop (8 * i)).take 8) ∧
      beValue ((arr.drop (8 * i)).take 8) < 2 ^ 64 := by
  have hl : ((arr.drop (8 * i)).take 8).length = 8 := by
    simp only [List.length_take, List.length_drop]; omega
  have hmem : ∀ b ∈ (arr.drop (8 * i)).take 8, b < 256 := fun b hin =>
    hb b (List.mem_of_mem_drop (List.mem_of_mem_take hin))
  have e0 := getD_chunk arr i 0 (by omega)
  have e1 := getD_chunk arr i 1 (by omega)
  have e2 := getD_chunk arr i 2 (by omega)
  have e3 := getD_chunk arr i 3 (by omega)
  have e4 := getD_chunk arr i 4 (by omega)
  have e5 := getD_chunk arr i 5 (by omega)
  have e6 := getD_chunk arr i 6 (by omega)
  have e7 := getD_chunk arr i 7 (by omega)
  simp only [packAt, e0, e1, e2, e3, e4, e5, e6, e7]
  generalize (arr.drop (8 * i)).take 8 = l at hl hmem
  match l, hl with
  | [b0, b1, b2, b3, b4, b5, b6, b7], _ =>
    have h0 : b0 < 256 := hmem b0 (by simp)
    have h1 : b1 < 256 := hmem b1 (by simp)
    have h2 : b2 < 256 := hmem b2 (by simp)
    have h3 : b3 < 256 := hmem b3 (by simp)
    have h4 : b4 < 256 := hmem b4 (by simp)
    have h5 : b5 < 256 := hmem b5 (by simp)
    have h6 : b6 < 256 := hmem b6 (by simp)
    have h7 : b7 < 256 := hmem b7 (by simp)
    simp only [List.getD_cons_zero, List.getD_cons_succ,
      Nat.shiftLeft_eq, Nat.one_mul, apiAddN, List.foldl, beValue, List.length_cons,
      List.length_nil]
    simp (disch := omega) only [apiMul_small, apiAdd_small]
    constructor
    · omega
    · omega

theorem limbsLoop_spec (arr : List Nat) (m : Nat) (harr : arr.length = 8 * m) :
    ∀ (is ret : List Nat), ret.length = m → (∀ i ∈ is, i < m) →
      ∃ out, limbsLoop arr is ret = .ok out ∧ out.length = m ∧
        ∀ k, k < m → out[k]? =
          if (m - 1 - k) ∈ is then some (packAt arr (m - 1 - k)) else ret[k]? := by
  intro is
  induction is with
  | nil =>
    intro ret hret _
    exact ⟨ret, rfl, hret, fun k _ => by simp⟩
  | cons i rest ih =>
    intro ret hret his
    have hi : i < m := his i (by simp)
    have hlimb := limbAt_ok arr i (by omega)
    have hset : setAt ret (ret.length - 1 - i) (packAt arr i) =
        .ok (ret.set (m - 1 - i) (packAt arr i)) := by
      simp only [setAt, hret]
      rw [if_pos (by omega)]
    obtain ⟨out, hout, hlen, hget⟩ :=
      ih (ret.set (m - 1 - i) (packAt arr i))
        (by simp [hret]) (fun j hj => his j (by simp [hj]))
    refine ⟨out, ?_, hlen, ?_⟩
    · simp only [limbsLoop, hlimb, hset, bind, Except.bind]
      exact hout
    · intro k hk
      rw [hget k hk]
      by_cases hmem : (m - 1 - k) ∈ rest
      · simp [hmem]
      · rw [if_neg hmem]
        by_cases hik : m - 1 - k = i
        · have hki : m - 1 - i = k := by omega
          rw [if_pos (by simp [hik]), hki, List.getElem?_set_self (by omega), hik]
        · have hne : m - 1 - i ≠ k := by omega
          rw [if_neg (by simp [hik, hmem]), List.getElem?_set_ne hne]

theorem padded_length (a : List Nat) : (padded a).length = 8 * ((a.length + 7) / 8) := by
  simp only [padded, List.length_append, List.length_replicate]
  omega

theorem padded_byte (a : List Nat) (hbyte : ∀ b ∈ a, b < 256) :
    ∀ b ∈ padded a, b < 256 := by
  intro b hb
  simp only [padded, List.mem_append, List.mem_replicate] at hb
  rcases hb with ⟨_, h0⟩ | h
  · omega
  · exact hbyte b h

theorem limbsOf_length (a : List Nat) : (limbsOf a).length = (a.length + 7) / 8 := by
  simp [limbsOf]

theorem limbsOf_getElem? (a : List Nat) (k : Nat) (hk : k < (a.length + 7) / 8) :
    (limbsOf a)[k]? = some (packAt (padded a) ((a.length + 7) / 8 - 1 - k)) := by
  simp [limbsOf, List.getElem?_map, List.getElem?_range hk]

/-- `ByteArrayToLimbs` never fails, and returns `limbsOf`. -/
theorem ByteArrayToLimbs_eq (a : List Nat) : ByteArrayToLimbs a = .ok (limbsOf a) := by
  obtain ⟨out, hout, holen, hget⟩ := limbsLoop_spec (padded a) ((a.length + 7) / 8)
    (padded_length a) (List.range ((a.length + 7) / 8))
    (List.replicate ((a.length + 7) / 8) 0) (by simp) (fun i hi => List.mem_range.mp hi)
  have hout2 : ByteArrayToLimbs a = .ok out := by
    simpa only [ByteArrayToLimbs, padded, List.length_replicate] using hout
  rw [hout2]
  congr 1
  apply List.ext_getElem?
  intro k
  by_cases hk : k < (a.length + 7) / 8
  · rw [hget k hk, if_pos (List.mem_range.mpr (by omega)), limbsOf_getElem? a k hk]
  · rw [List.getElem?_eq_none (by omega),
      List.getElem?_eq_none (by rw [limbsOf_length]; omega)]

/-! ## The value of the limbs -/

theorem beValue_append (xs ys : List Nat) :
    beValue (xs ++ ys) = beValue xs * 256 ^ ys.length + beValue ys := by
  induction xs with
  | nil => simp [beValue]
  | cons x rest ih =>
    have hcons : beValue (x :: (rest ++ ys)) =
        x * 256 ^ (rest ++ ys).length + beValue (rest ++ ys) := rfl
    have hx : beValue (x :: rest) = x * 256 ^ rest.length + beValue rest := rfl
    rw [List.cons_append, hcons, ih, hx, List.length_append, pow_add]
    ring

theorem limbsValue_append (xs ys : List Nat) :
    limbsValue (xs ++ ys) = limbsValue xs + 2 ^ (64 * xs.length) * limbsValue ys := by
  induction xs with
  | nil => simp [limbsValue]
  | cons x rest ih =>
    have hcons : limbsValue (x :: (rest ++ ys)) = x + 2 ^ 64 * limbsValue (rest ++ ys) := rfl
    have hx : limbsValue (x :: rest) = x + 2 ^ 64 * limbsValue rest := rfl
    rw [List.cons_append, hcons, ih, hx, List.length_cons, Nat.mul_succ, pow_add]
    ring

theorem beValue_replicate_zero (k : Nat) (xs : List Nat) :
    beValue (List.replicate k 0 ++ xs) = beValue xs := by
  induction k with
  | zero => simp
  | succ k ih => simp [List.replicate_succ, beValue, ih]

theorem limbsValue_of_chunks : ∀ (m : Nat) (arr out : List Nat), arr.length = 8 * m →
    out.length = m →
    (∀ k, k < m → out[k]? = some (beValue ((arr.drop (8 * (m - 1 - k))).take 8))) →
    limbsValue out = beValue arr := by
  intro m
  induction m with
  | zero =>
    intro arr out harr hout _
    have h1 : arr = [] := List.length_eq_zero.mp (by omega)
    have h2 : out = [] := List.length_eq_zero.mp hout
    simp [h1, h2, limbsValue, beValue]
  | succ m ih =>
    intro arr out harr hout hget
    have hsplit : out = out.take m ++ [beValue (arr.take 8)] := by
      have hlast := hget m (by omega)
      simp only [Nat.add_sub_cancel, Nat.sub_self, Nat.mul_zero, List.drop_zero] at hlast
      apply List.ext_getElem?
      intro k
      by_cases hk : k < m
      · rw [List.getElem?_append_left (by simp [hout]; omega), List.getElem?_take_of_lt hk]
      · by_cases hkm : k = m
        · subst hkm
          rw [hlast, List.getElem?_append_right (by simp [hout])]
          simp [hout]
        · rw [List.getElem?_eq_none (by omega), List.getElem?_eq_none (by simp [hout]; omega)]
    have hrec := ih (arr.drop 8) (out.take m) (by simp [harr]; omega) (by simp [hout])
      (fun k hk => by
        rw [List.getElem?_take_of_lt hk, hget k (by omega), List.drop_drop]
        congr 4
        omega)
    have harr2 : arr = arr.take 8 ++ arr.drop 8 := (List.take_append_drop 8 arr).symm
    rw [hsplit, limbsValue_append, hrec, harr2, beValue_append]
    simp only [limbsValue, List.length_take, List.length_drop, hout, harr, List.take_append_drop]
    have e1 : min m (m + 1) = m := by omega
    have e2 : 8 * (m + 1) - 8 = 8 * m := by omega
    rw [e1, e2, show 64 * m = 8 * (8 * m) by ring, pow_mul]
    norm_num
    ring

theorem limbsOf_chunk (a : List Nat) (hbyte : ∀ b ∈ a, b < 256) (k : Nat)
    (hk : k < (a.length + 7) / 8) :
    (limbsOf a)[k]? =
      some (beValue (((padded a).drop (8 * ((a.length + 7) / 8 - 1 - k))).take 8)) := by
  rw [limbsOf_getElem? a k hk,
    (packAt_eq_beValue (padded a) _ (by rw [padded_length]; omega) (padded_byte a hbyte)).1]

theorem limbsOf_lt (a : List Nat) (hbyte : ∀ b ∈ a, b < 256) : ∀ l ∈ limbsOf a, l < 2 ^ 64 := by
  intro l hl
  obtain ⟨k, hk, rfl⟩ := List.getElem_of_mem hl
  have hk2 : k < (a.length + 7) / 8 := by rw [limbsOf_length] at hk; exact hk
  have h := limbsOf_chunk a hbyte k hk2
  rw [List.getElem?_eq_getElem hk] at h
  rw [Option.some.inj h]
  exact (packAt_eq_beValue (padded a) _ (by rw [padded_length]; omega) (padded_byte a hbyte)).2

theorem limbsValue_limbsOf (a : List Nat) (hbyte : ∀ b ∈ a, b < 256) :
    limbsValue (limbsOf a) = beValue a := by
  rw [limbsValue_of_chunks _ (padded a) (limbsOf a) (padded_length a) (limbsOf_length a)
    (limbsOf_chunk a hbyte)]
  exact beValue_replicate_zero _ a

theorem ByteArrayToLimbs_ok (a : List Nat) (hbyte : ∀ b ∈ a, b < 256) :
    ∃ ret, ByteArrayToLimbs a = .ok ret ∧ ret.length = (a.length + 7) / 8 ∧
      (∀ l ∈ ret, l < 2 ^ 64) ∧ limbsValue ret = beValue a ∧
      ∀ i, i < (a.length + 7) / 8 →
        ret[(a.length + 7) / 8 - 1 - i]? = some (beValue (((padded a).drop (8 * i)).take 8)) := by
  refine ⟨limbsOf a, ByteArrayToLimbs_eq a, limbsOf_length a, limbsOf_lt a hbyte,
    limbsValue_limbsOf a hbyte, ?_⟩
  intro i hi
  rw [limbsOf_chunk a hbyte _ (by omega)]
  congr 5
  omega

/-! ## C1: `ByteArrayToLimbs` packs big-endian bytes into little-endian 64-bit limbs -/

/-- C1. For every byte sequence `a` (every byte below 256, any length `n`), `ByteArrayToLimbs`
returns without error exactly `(n + 7) / 8` limbs, each below `2^64`, whose little-endian
base-`2^64` value `Σ ret[k] * 2^(64k)` is the big-endian integer `Σ a[j] * 256^(n-1-j)` of `a`;
and with `b` the input left-padded with zero bytes to length `8m`, limb `m-1-i` is the
big-endian packing of `b[8i..8i+7]`. -/
theorem ByteArrayToLimbs_packs_big_endian (a : List Nat) (hbyte : ∀ b ∈ a, b < 256) :
    ∃ ret, ByteArrayToLimbs a = .ok ret ∧ ret.length = (a.length + 7) / 8 ∧
      (∀ l ∈ ret, l < 2 ^ 64) ∧ limbsValue ret = beValue a ∧
      ∀ i, i < (a.length + 7) / 8 →
        ret[(a.length + 7) / 8 - 1 - i]? =
          some (beValue (((padded a).drop (8 * i)).take 8)) :=
  ByteArrayToLimbs_ok a hbyte

/-- C1 at the nine bytes `1, 2, .., 9`. -/
theorem ByteArrayToLimbs_packs_big_endian_witness :
    (∀ b ∈ [1, 2, 3, 4, 5, 6, 7, 8, 9], b < 256) ∧
    ∃ ret, ByteArrayToLimbs [1, 2, 3, 4, 5, 6, 7, 8, 9] = .ok ret ∧
      ret.length = ([1, 2, 3, 4, 5, 6, 7, 8, 9].length + 7) / 8 ∧
      (∀ l ∈ ret, l < 2 ^ 64) ∧ limbsValue ret = beValue [1, 2, 3, 4, 5, 6, 7, 8, 9] ∧
      ∀ i, i < ([1, 2, 3, 4, 5, 6, 7, 8, 9].length + 7) / 8 →
        ret[([1, 2, 3, 4, 5, 6, 7, 8, 9].length + 7) / 8 - 1 - i]? =
          some (beValue (((padded [1, 2, 3, 4, 5, 6, 7, 8, 9]).drop (8 * i)).take 8)) :=
  ⟨by decide, ByteArrayToLimbs_packs_big_endian [1, 2, 3, 4, 5, 6, 7, 8, 9] (by decide)⟩

/-! ## The builder monad -/

theorem Builder.bind_ok {α β : Type} {m : Builder α} {f : α → Builder β} {cs cs1 : ConstraintSystem}
    {a : α} (h : m cs = (.ok a, cs1)) : (m >>= f) cs = f a cs1 := by
  show Builder.andThen m f cs = _
  simp [Builder.andThen, h]

theorem Builder.bind_error {α β : Type} {m : Builder α} {f : α → Builder β}
    {cs cs1 : ConstraintSystem} {e : BuildError} (h : m cs = (.error e, cs1)) :
    (m >>= f) cs = (.error e, cs1) := by
  show Builder.andThen m f cs = _
  simp [Builder.andThen, h]

theorem Builder.pure_apply {α : Type} (a : α) (cs : ConstraintSystem) :
    (pure a : Builder α) cs = (.ok a, cs) := rfl

theorem Builder.emit_apply (op : Op) (cs : ConstraintSystem) :
    Builder.emit op cs = (.ok (), cs ++ [op]) := rfl

theorem Builder.fail_apply {α : Type} (e : BuildError) (cs : ConstraintSystem) :
    (Builder.fail e : Builder α) cs = (.error e, cs) := rfl

theorem Builder.lift_ok {α : Type} {x : Except BuildError α} {a : α} (h : x = .ok a)
    (cs : ConstraintSystem) : Builder.lift x cs = (.ok a, cs) := by
  subst h; rfl

theorem Builder.lift_error {α : Type} {x : Except BuildError α} {e : BuildError}
    (h : x = .error e) (cs : ConstraintSystem) : Builder.lift x cs = (.error e, cs) := by
  subst h; rfl

theorem apiAssertIsEqual_apply (a b : Nat) (cs : ConstraintSystem) :
    apiAssertIsEqual a b cs = (.ok (), cs ++ [.assertIsEqual a b]) := rfl

theorem apiToBinary_apply (v n : Nat) (cs : ConstraintSystem) :
    apiToBinary v n cs = (.ok (nBits v n), cs ++ [.toBinary v n]) := rfl

theorem nBits_length (v n : Nat) : (nBits v n).length = n := by simp [nBits]

theorem nBits_getD (v n j : Nat) (h : j < n) : (nBits v n).getD j 0 = v / 2 ^ j % 2 := by
  simp [nBits, List.getD_eq_getElem?_getD, List.getElem?_map, List.getElem?_range h]

/-! ## The address check of `validateSig` -/

theorem assertBitsLoop_spec (dl addrBits : List Nat) (i : Nat) :
    ∀ (js : List Nat) (cs : ConstraintSystem),
      (∀ j ∈ js, j < dl.length ∧ i * 8 + j < addrBits.length) →
      assertBitsLoop dl addrBits i js cs =
        (.ok (), cs ++ js.map (fun j => Op.assertIsEqual (dl.getD j 0)
          (addrBits.getD (i * 8 + j) 0))) := by
  intro js
  induction js with
  | nil => intro cs _; simp [assertBitsLoop, Builder.pure_apply]
  | cons j rest ih =>
    intro cs h
    have hj := h j (by simp)
    simp only [assertBitsLoop]
    rw [Builder.bind_ok (Builder.lift_ok (indexAt_of_lt hj.1) cs),
      Builder.bind_ok (Builder.lift_ok (indexAt_of_lt hj.2) cs),
      Builder.bind_ok (apiAssertIsEqual_apply _ _ cs),
      ih _ (fun k hk => h k (by simp [hk]))]
    simp

theorem addressLoop_spec (lower20Bytes : List Nat) (ethAddr : Nat) :
    ∀ (is : List Nat) (cs : ConstraintSystem),
      (∀ i ∈ is, 19 - i < lower20Bytes.length ∧ i < 20) →
      addressLoop lower20Bytes (nBits ethAddr 160) is cs =
        (.ok (), cs ++ is.flatMap (fun i =>
          addressRoundOps (lower20Bytes.getD (19 - i) 0) ethAddr i)) := by
  intro is
  induction is with
  | nil => intro cs _; simp [addressLoop, Builder.pure_apply]
  | cons i rest ih =>
    intro cs h
    have hi := h i (by simp)
    simp only [addressLoop]
    rw [Builder.bind_ok (Builder.lift_ok (indexAt_of_lt hi.1) cs),
      Builder.bind_ok (apiToBinary_apply _ _ cs),
      Builder.bind_ok (assertBitsLoop_spec _ _ i (List.range 8) _ (fun j hj => by
        have := List.mem_range.mp hj
        simp only [nBits_length]
        omega)),
      ih _ (fun k hk => h k (by simp [hk]))]
    have hmap : (List.range 8).map (fun j => Op.assertIsEqual
          ((nBits (lower20Bytes.getD (19 - i) 0) 8).getD j 0)
          ((nBits ethAddr 160).getD (i * 8 + j) 0)) =
        (List.range 8).map (fun j => Op.assertIsEqual
          (lower20Bytes.getD (19 - i) 0 / 2 ^ j % 2) (ethAddr / 2 ^ (i * 8 + j) % 2)) := by
      apply List.map_congr_left
      intro j hj
      have := List.mem_range.mp hj
      rw [nBits_getD _ _ _ this, nBits_getD _ _ _ (by omega)]
    rw [hmap]
    simp [addressRoundOps]


theorem sliceFrom_ok (xs : List Nat) (lo : Nat) (h : lo ≤ xs.length) :
    sliceFrom xs lo = .ok (xs.drop lo) := by
  simp [sliceFrom, sliceOf, h]

theorem sliceOf_ok (xs : List Nat) (lo hi : Nat) (h1 : lo ≤ hi) (h2 : hi ≤ xs.length) :
    sliceOf xs lo hi = .ok ((xs.take hi).drop lo) := by
  simp [sliceOf, h1, h2]

theorem NewLegacyKeccak256_apply (env : Gadgets) (h : env.keccakNewFails = false)
    (cs : ConstraintSystem) :
    NewLegacyKeccak256 env cs = (.ok { written := [] }, cs ++ [.keccakNew]) := by
  simp [NewLegacyKeccak256, h]
  rfl

theorem keccakSum_apply (env : Gadgets) (h : Hasher) (cs : ConstraintSystem) :
    h.keccakSum env cs = (.ok (env.keccak256 h.written), cs ++ [.keccakSum h.written]) := rfl

/-- The operations emitted by the address check for the public key `PubBytes`. -/
theorem validateAddress_apply (env : Gadgets) (PubBytes : List Nat) (ethAddr : Nat)
    (cs : ConstraintSystem) (hk : env.keccakNewFails = false) (hlen : 1 ≤ PubBytes.length) :
    validateAddress env PubBytes ethAddr cs =
      (.ok (), cs ++ addressOps env PubBytes ethAddr) := by
  have hdig := env.keccak256_length (PubBytes.drop 1)
  simp only [validateAddress]
  rw [Builder.bind_ok (NewLegacyKeccak256_apply env hk cs),
    Builder.bind_ok (Builder.lift_ok (sliceFrom_ok PubBytes 1 hlen) _)]
  simp only [Hasher.Write, List.nil_append]
  rw [Builder.bind_ok (keccakSum_apply env _ _),
    Builder.bind_ok (Builder.lift_ok (sliceFrom_ok _ 12 (by rw [hdig]; omega)) _),
    Builder.bind_ok (apiToBinary_apply _ _ _),
    addressLoop_spec _ _ _ _ (fun i hi => by
      have : i < 20 := by simpa using hi
      simp only [List.length_drop, hdig]
      omega)]
  simp [addressOps, List.append_assoc]

theorem fromBits_nBits (n : Nat) : ∀ v, fromBits (nBits v n) = v % 2 ^ n := by
  induction n with
  | zero => intro v; simp [nBits, fromBits, Nat.mod_one]
  | succ n ih =>
    intro v
    have hstep : nBits v (n + 1) = v % 2 :: nBits (v / 2) n := by
      simp only [nBits, List.range_succ_eq_map, List.map_cons, List.map_map, pow_zero,
        Nat.div_one]
      congr 1
      apply List.map_congr_left
      intro j _
      simp only [Function.comp, pow_succ, Nat.div_div_eq_div_mul]
      rw [Nat.mul_comm]
    rw [hstep, fromBits, ih, pow_succ]
    have h1 : v % (2 ^ n * 2) = v % 2 + 2 * (v / 2 % 2 ^ n) := by
      rw [Nat.mul_comm, Nat.mod_mul]
    omega


theorem two_pow_le_fieldModulus {n : Nat} (h : n ≤ 253) : 2 ^ n ≤ fieldModulus := by
  calc 2 ^ n ≤ 2 ^ 253 := Nat.pow_le_pow_right (by omega) h
    _ ≤ fieldModulus := by unfold fieldModulus; norm_num

theorem toBinary_holds_iff (env : Gadgets) (v n : Nat) (hv : v < fieldModulus) (hn : n ≤ 253) :
    (Op.toBinary v n).holds env = true ↔ v < 2 ^ n := by
  have hp := two_pow_le_fieldModulus hn
  have hlt : v % 2 ^ n < 2 ^ n := Nat.mod_lt _ (by positivity)
  simp only [Op.holds, beq_iff_eq, fromBits_nBits]
  rw [Nat.mod_eq_of_lt (by omega : v % 2 ^ n < fieldModulus), Nat.mod_eq_of_lt hv]
  constructor
  · intro h; omega
  · intro h; exact Nat.mod_eq_of_lt h

theorem assertIsEqual_bit_holds_iff (env : Gadgets) (x y : Nat) :
    (Op.assertIsEqual (x % 2) (y % 2)).holds env = true ↔ x % 2 = y % 2 := by
  have hx : x % 2 < fieldModulus := by unfold fieldModulus; omega
  have hy : y % 2 < fieldModulus := by unfold fieldModulus; omega
  simp only [Op.holds, beq_iff_eq, Nat.mod_eq_of_lt hx, Nat.mod_eq_of_lt hy]

theorem byte_bits_iff (d y : Nat) (hd : d < 256) :
    (∀ j, j < 8 → d / 2 ^ j % 2 = y / 2 ^ j % 2) ↔ d = y % 256 := by
  constructor
  · intro h
    have h0 := h 0 (by omega)
    have h1 := h 1 (by omega)
    have h2 := h 2 (by omega)
    have h3 := h 3 (by omega)
    have h4 := h 4 (by omega)
    have h5 := h 5 (by omega)
    have h6 := h 6 (by omega)
    have h7 := h 7 (by omega)
    norm_num at h0 h1 h2 h3 h4 h5 h6 h7
    omega
  · intro h j hj
    interval_cases j <;> norm_num <;> omega

theorem addressRoundOps_hold_iff (env : Gadgets) (d ethAddr i : Nat) (hd : d < 256) :
    (∀ op ∈ addressRoundOps d ethAddr i, op.holds env = true) ↔
      d = ethAddr / 256 ^ i % 256 := by
  have hdp : d < fieldModulus := by unfold fieldModulus; omega
  have hshift : ∀ j, ethAddr / 2 ^ (i * 8 + j) = ethAddr / 256 ^ i / 2 ^ j := by
    intro j
    rw [Nat.div_div_eq_div_mul, pow_add, Nat.mul_comm i 8, pow_mul]
    norm_num
  rw [← byte_bits_iff d _ hd]
  simp only [addressRoundOps, List.mem_cons, List.mem_map, List.mem_range, forall_eq_or_imp,
    forall_exists_index, and_imp]
  rw [toBinary_holds_iff env d 8 hdp (by omega)]
  constructor
  · rintro ⟨_, h⟩ j hj
    have := h _ j hj rfl
    rw [assertIsEqual_bit_holds_iff, hshift] at this
    exact this
  · intro h
    refine ⟨by omega, ?_⟩
    rintro op j hj rfl
    rw [assertIsEqual_bit_holds_iff, hshift]
    exact h j hj

theorem beValue_lt (l : List Nat) (hb : ∀ b ∈ l, b < 256) : beValue l < 256 ^ l.length := by
  induction l with
  | nil => simp [beValue]
  | cons x rest ih =>
    have hx : x < 256 := hb x (by simp)
    have hr := ih (fun b h => hb b (by simp [h]))
    simp only [beValue, List.length_cons, pow_succ]
    nlinarith

theorem byte_of_mod (A k i : Nat) (h : i < k) :
    A % 256 ^ k / 256 ^ i % 256 = A / 256 ^ i % 256 := by
  have hk : 256 ^ k = 256 ^ i * 256 ^ (k - i) := by
    rw [← pow_add]; congr 1; omega
  rw [hk, Nat.mod_mul_right_div_self]
  apply Nat.mod_mod_of_dvd
  exact dvd_pow_self 256 (by omega)

theorem beValue_eq_iff_bytes (l : List Nat) (hb : ∀ b ∈ l, b < 256) :
    ∀ A, (A < 256 ^ l.length ∧ ∀ i, i < l.length → l.getD (l.length - 1 - i) 0 = A / 256 ^ i % 256)
      ↔ A = beValue l := by
  induction l with
  | nil =>
    intro A
    simp [beValue]
  | cons x rest ih =>
    intro A
    have hx : x < 256 := hb x (by simp)
    have hbr : ∀ b ∈ rest, b < 256 := fun b h => hb b (by simp [h])
    have hr := beValue_lt rest hbr
    have hpos : 0 < 256 ^ rest.length := by positivity
    have hdecomp := Nat.div_add_mod A (256 ^ rest.length)
    have hmodlt := Nat.mod_lt A hpos
    have hrest : (∀ i, i < rest.length →
        (x :: rest).getD ((x :: rest).length - 1 - i) 0 = A / 256 ^ i % 256) ↔
        (∀ i, i < rest.length →
          rest.getD (rest.length - 1 - i) 0 = A % 256 ^ rest.length / 256 ^ i % 256) := by
      apply forall_congr'
      intro i
      apply imp_congr_right
      intro hi
      rw [byte_of_mod A _ i hi]
      have e : (x :: rest).length - 1 - i = (rest.length - 1 - i) + 1 := by
        simp only [List.length_cons]; omega
      rw [e, List.getD_cons_succ]
    have hsplit : (∀ i, i < (x :: rest).length →
        (x :: rest).getD ((x :: rest).length - 1 - i) 0 = A / 256 ^ i % 256) ↔
        (x = A / 256 ^ rest.length % 256 ∧ ∀ i, i < rest.length →
          (x :: rest).getD ((x :: rest).length - 1 - i) 0 = A / 256 ^ i % 256) := by
      constructor
      · intro h
        refine ⟨?_, fun i hi => h i (by simp only [List.length_cons]; omega)⟩
        have := h rest.length (by simp)
        simpa using this
      · rintro ⟨h1, h2⟩ i hi
        by_cases hir : i < rest.length
        · exact h2 i hir
        · have : i = rest.length := by simp only [List.length_cons] at hi; omega
          subst this
          simpa using h1
    rw [hsplit, hrest]
    have hih := ih hbr (A % 256 ^ rest.length)
    simp only [beValue, List.length_cons, pow_succ]
    constructor
    · rintro ⟨hA, hx2, hbytes⟩
      have hB := hih.mp ⟨hmodlt, hbytes⟩
      have hq : A / 256 ^ rest.length < 256 := by
        rw [Nat.div_lt_iff_lt_mul hpos]; linarith
      rw [Nat.mod_eq_of_lt hq] at hx2
      rw [hx2, ← hB]
      linarith
    · intro hA
      have hq : A / 256 ^ rest.length = x := by
        rw [hA, Nat.mul_comm, Nat.mul_add_div hpos, Nat.div_eq_of_lt hr]; simp
      have hm : A % 256 ^ rest.length = beValue rest := by
        rw [hA, Nat.mul_comm, Nat.mul_add_mod, Nat.mod_eq_of_lt hr]
      refine ⟨by rw [hA]; nlinarith, ?_, (hih.mpr hm).2⟩
      rw [hq, Nat.mod_eq_of_lt hx]


theorem addressOps_hold_iff (env : Gadgets) (PubBytes : List Nat) (ethAddr : Nat)
    (hA : ethAddr < fieldModulus) :
    (∀ op ∈ addressOps env PubBytes ethAddr, op.holds env = true) ↔
      ethAddr < 2 ^ 160 ∧ ethAddr = beValue ((env.keccak256 (PubBytes.drop 1)).drop 12) := by
  have hdig := env.keccak256_length (PubBytes.drop 1)
  have hlen : ((env.keccak256 (PubBytes.drop 1)).drop 12).length = 20 := by
    rw [List.length_drop, hdig]
  have hbyte : ∀ b ∈ (env.keccak256 (PubBytes.drop 1)).drop 12, b < 256 := fun b hb =>
    env.keccak256_byte _ b (List.mem_of_mem_drop hb)
  have hget : ∀ k, k < 20 → ((env.keccak256 (PubBytes.drop 1)).drop 12).getD k 0 < 256 := by
    intro k hk
    rw [List.getD_eq_getElem _ _ (by rw [hlen]; exact hk)]
    exact hbyte _ (List.getElem_mem _)
  have hmain := beValue_eq_iff_bytes _ hbyte ethAddr
  rw [hlen] at hmain
  have hpow : (256 : Nat) ^ 20 = 2 ^ 160 := by norm_num
  rw [hpow] at hmain
  have hrounds : (∀ op ∈ (List.range 20).reverse.flatMap (fun i => addressRoundOps
        (((env.keccak256 (PubBytes.drop 1)).drop 12).getD (19 - i) 0) ethAddr i),
        op.holds env = true) ↔
      ∀ i, i < 20 → ((env.keccak256 (PubBytes.drop 1)).drop 12).getD (20 - 1 - i) 0 =
        ethAddr / 256 ^ i % 256 := by
    simp only [List.mem_flatMap, List.mem_reverse, List.mem_range, forall_exists_index, and_imp]
    constructor
    · intro h i hi
      exact (addressRoundOps_hold_iff env _ ethAddr i (hget _ (by omega))).mp
        (fun op hop => h op i hi hop)
    · intro h op i hi hop
      exact (addressRoundOps_hold_iff env _ ethAddr i (hget _ (by omega))).mpr (h i hi) op hop
  have hsplit : (∀ op ∈ addressOps env PubBytes ethAddr, op.holds env = true) ↔
      ((Op.toBinary ethAddr 160).holds env = true ∧
        ∀ op ∈ (List.range 20).reverse.flatMap (fun i => addressRoundOps
          (((env.keccak256 (PubBytes.drop 1)).drop 12).getD (19 - i) 0) ethAddr i),
          op.holds env = true) := by
    simp only [addressOps, List.mem_append, List.mem_cons, List.mem_singleton, List.not_mem_nil,
      or_false]
    constructor
    · intro h
      exact ⟨h _ (Or.inl (Or.inr (Or.inr rfl))), fun op hop => h op (Or.inr hop)⟩
    · rintro ⟨h1, h2⟩ op (hop | hop)
      · rcases hop with rfl | rfl | rfl
        · rfl
        · rfl
        · exact h1
      · exact h2 op hop
  rw [hsplit, hrounds, toBinary_holds_iff env ethAddr 160 hA (by omega), ← hmain]
  constructor
  · rintro ⟨h1, h2⟩
    exact ⟨h1, h1, h2⟩
  · rintro ⟨h1, _, h2⟩
    exact ⟨h1, h2⟩

/-! ## C2: the address check of `validateSig` -/

/-- C2. For every 65-byte public key and every field element `ethAddr`, the address check of
`validateSig` emits the Keccak-256 gadget on `PubBytes[1:]`, the decomposition of `ethAddr`
into 160 bits and, for `i = 19, .., 0`, the decomposition of digest byte `12 + (19 - i)` with
its eight equalities against address bits `8i .. 8i+7` (so digest byte 12 meets bits 152..159
and digest byte 31 meets bits 0..7, both least-significant-bit first); the address bit indices
so constrained are a permutation of `0 .. 159`; and these assertions all hold exactly when
`ethAddr < 2^160` and `ethAddr` is the big-endian integer of digest bytes 12..31. -/
theorem validateSig_address_check (env : Gadgets) (PubBytes : List Nat) (ethAddr : Nat)
    (cs : ConstraintSystem) (hlen : PubBytes.length = 65) (hA : ethAddr < fieldModulus)
    (hk : env.keccakNewFails = false) :
    validateAddress env PubBytes ethAddr cs =
        (.ok (), cs ++ ([Op.keccakNew, Op.keccakSum (PubBytes.drop 1), Op.toBinary ethAddr 160] ++
          (List.range 20).reverse.flatMap (fun i =>
            Op.toBinary ((env.keccak256 (PubBytes.drop 1)).getD (12 + (19 - i)) 0) 8 ::
              (List.range 8).map (fun j => Op.assertIsEqual
                ((env.keccak256 (PubBytes.drop 1)).getD (12 + (19 - i)) 0 / 2 ^ j % 2)
                (ethAddr / 2 ^ (i * 8 + j) % 2))))) ∧
      ((List.range 20).reverse.flatMap (fun i => (List.range 8).map (fun j => i * 8 + j))).Perm
        (List.range 160) ∧
      ((∀ op ∈ (validateAddress env PubBytes ethAddr []).2, op.holds env = true) ↔
        ethAddr < 2 ^ 160 ∧
          ethAddr = beValue ((env.keccak256 (PubBytes.drop 1)).drop 12)) := by
  refine ⟨?_, by decide, ?_⟩
  · rw [validateAddress_apply env PubBytes ethAddr cs hk (by omega)]
    simp only [addressOps, addressRoundOps, List.getD_eq_getElem?_getD, List.getElem?_drop]
  · rw [validateAddress_apply env PubBytes ethAddr [] hk (by omega), List.nil_append]
    exact addressOps_hold_iff env PubBytes ethAddr hA


/-- C2 at the public key `0, 1, .., 64` and the address read off the sample digest. -/
theorem validateSig_address_check_witness :
    (List.range 65).length = 65 ∧ sampleAddress < fieldModulus ∧
    sampleGadgets.keccakNewFails = false ∧
    (validateAddress sampleGadgets (List.range 65) sampleAddress [] =
        (.ok (), [] ++ ([Op.keccakNew, Op.keccakSum ((List.range 65).drop 1),
            Op.toBinary sampleAddress 160] ++
          (List.range 20).reverse.flatMap (fun i =>
            Op.toBinary ((sampleGadgets.keccak256 ((List.range 65).drop 1)).getD
                (12 + (19 - i)) 0) 8 ::
              (List.range 8).map (fun j => Op.assertIsEqual
                ((sampleGadgets.keccak256 ((List.range 65).drop 1)).getD (12 + (19 - i)) 0
                  / 2 ^ j % 2)
                (sampleAddress / 2 ^ (i * 8 + j) % 2))))) ∧
      ((List.range 20).reverse.flatMap (fun i => (List.range 8).map (fun j => i * 8 + j))).Perm
        (List.range 160) ∧
      ((∀ op ∈ (validateAddress sampleGadgets (List.range 65) sampleAddress []).2,
          op.holds sampleGadgets = true) ↔
        sampleAddress < 2 ^ 160 ∧
          sampleAddress =
            beValue ((sampleGadgets.keccak256 ((List.range 65).drop 1)).drop 12))) :=
  ⟨by decide, by decide, rfl,
    validateSig_address_check sampleGadgets (List.range 65) sampleAddress [] (by decide)
      (by decide) rfl⟩


/-! ## What each function emits -/

theorem constructorsSucceed_iff (env : Gadgets) :
    env.constructorsSucceed = true ↔ env.uintsNewFails = false ∧ env.sha2NewFails = false ∧
      env.keccakNewFails = false ∧ env.newFieldFails = false := by
  simp [Gadgets.constructorsSucceed, and_assoc]

theorem uintsNew_apply (env : Gadgets) (h : env.uintsNewFails = false) (cs : ConstraintSystem) :
    uintsNew env cs = (.ok {}, cs ++ [.uintsNew]) := by
  simp [uintsNew, h]
  rfl

theorem sha2New_apply (env : Gadgets) (h : env.sha2NewFails = false) (cs : ConstraintSystem) :
    sha2New env cs = (.ok { written := [] }, cs ++ [.sha2New]) := by
  simp [sha2New, h]
  rfl

theorem ValueOf_apply (uapi : BinaryField) (v : Nat) (cs : ConstraintSystem) :
    uapi.ValueOf v cs = (.ok (toBytes 8 v), cs ++ [.valueOf v]) := rfl

theorem sha2Sum_apply (env : Gadgets) (h : Hasher) (cs : ConstraintSystem) :
    h.sha2Sum env cs = (.ok (env.sha256 h.written), cs ++ [.sha2Sum h.written]) := rfl

theorem NewField_apply (env : Gadgets) (t : EmulatedField) (h : env.newFieldFails = false)
    (cs : ConstraintSystem) : NewField env t cs = (.ok { t := t }, cs ++ [.newField t]) := by
  simp [NewField, h]
  rfl

theorem NewElement_apply (efp : EmulatedFieldApi) (limbs : List Nat) (cs : ConstraintSystem) :
    efp.NewElement limbs cs = (.ok { Limbs := limbs }, cs ++ [.newElement efp.t limbs]) := rfl

theorem Verify_apply (pubkey : PublicKey) (msg : Element) (signature : Signature)
    (cs : ConstraintSystem) :
    pubkey.Verify msg signature cs = (.ok (), cs ++ [.ecdsaVerify pubkey.X.Limbs pubkey.Y.Limbs
      msg.Limbs signature.R.Limbs signature.S.Limbs]) := rfl

theorem NewBoundedComparator_apply (absDiffUpp : Nat) (cs : ConstraintSystem) :
    NewBoundedComparator absDiffUpp cs =
      (.ok { absDiffUppBitLen := bitLen absDiffUpp }, cs ++ [.newBoundedComparator absDiffUpp]) :=
  rfl

theorem AssertIsLessEq_apply (bc : BoundedComparator) (a b : Nat) (cs : ConstraintSystem) :
    bc.AssertIsLessEq a b cs = (.ok (), cs ++ [.assertIsLessEq bc.absDiffUppBitLen a b]) := rfl

theorem hashSumInput_apply (env : Gadgets) (uapi : BinaryField) (payloadHash : List Nat)
    (timestamp value : Nat) (h : env.sha2NewFails = false) (cs : ConstraintSystem) :
    hashSumInput env uapi payloadHash timestamp value cs =
      (.ok (env.sha256 (hashMessage payloadHash timestamp value)),
        cs ++ hashOps payloadHash timestamp value) := by
  simp only [hashSumInput]
  rw [Builder.bind_ok (sha2New_apply env h cs),
    Builder.bind_ok (Builder.lift_ok (sliceFrom_ok payloadHash 0 (by omega)) _),
    Builder.bind_ok (ValueOf_apply _ _ _), Builder.bind_ok (ValueOf_apply _ _ _), sha2Sum_apply]
  simp [Hasher.Write, BinaryField.UnpackLSB, hashMessage, hashOps]

theorem BytesToHash_apply (env : Gadgets) (input : List Nat) (h : env.newFieldFails = false)
    (cs : ConstraintSystem) :
    BytesToHash env input cs = (.ok { Limbs := limbsOf input }, cs ++ msgOps input) := by
  simp only [BytesToHash]
  rw [Builder.bind_ok (Builder.lift_ok (ByteArrayToLimbs_eq input) _),
    Builder.bind_ok (NewField_apply env _ h _), NewElement_apply]
  simp [msgOps]

theorem BytesToPubkey_error (env : Gadgets) (input : List Nat) (h : input.length ≠ 65)
    (cs : ConstraintSystem) : BytesToPubkey env input cs = (.error .invalidPubkeyLength, cs) := by
  simp only [BytesToPubkey, if_pos h]
  rfl

theorem BytesToPubkey_apply (env : Gadgets) (input : List Nat) (hlen : input.length = 65)
    (h : env.newFieldFails = false) (cs : ConstraintSystem) :
    BytesToPubkey env input cs =
      (.ok { X := { Limbs := limbsOf ((input.take 33).drop 1) },
             Y := { Limbs := limbsOf (input.drop 33) } }, cs ++ pubkeyOps input) := by
  have hx : (do ByteArrayToLimbs (← sliceOf input 1 33) : Except BuildError (List Nat)) =
      .ok (limbsOf ((input.take 33).drop 1)) := by
    rw [sliceOf_ok input 1 33 (by omega) (by omega)]
    exact ByteArrayToLimbs_eq _
  have hy : (do ByteArrayToLimbs (← sliceFrom input 33) : Except BuildError (List Nat)) =
      .ok (limbsOf (input.drop 33)) := by
    rw [sliceFrom_ok input 33 (by omega)]
    exact ByteArrayToLimbs_eq _
  simp only [BytesToPubkey, if_neg (not_not.mpr hlen)]
  rw [Builder.bind_ok (Builder.lift_ok hx _), Builder.bind_ok (Builder.lift_ok hy _),
    Builder.bind_ok (NewField_apply env _ h _), Builder.bind_ok (NewElement_apply _ _ _),
    Builder.bind_ok (NewElement_apply _ _ _), Builder.pure_apply]
  simp [pubkeyOps]

theorem BytesToSig_error (env : Gadgets) (input : List Nat) (h : input.length ≠ 64)
    (cs : ConstraintSystem) : BytesToSig env input cs = (.error .invalidSigLength, cs) := by
  simp only [BytesToSig, if_pos h]
  rfl

theorem BytesToSig_apply (env : Gadgets) (input : List Nat) (hlen : input.length = 64)
    (h : env.newFieldFails = false) (cs : ConstraintSystem) :
    BytesToSig env input cs =
      (.ok { R := { Limbs := limbsOf ((input.take 32).drop 0) },
             S := { Limbs := limbsOf (input.drop 32) } }, cs ++ sigOps input) := by
  have hr : (do ByteArrayToLimbs (← sliceOf input 0 32) : Except BuildError (List Nat)) =
      .ok (limbsOf ((input.take 32).drop 0)) := by
    rw [sliceOf_ok input 0 32 (by omega) (by omega)]
    exact ByteArrayToLimbs_eq _
  have hs : (do ByteArrayToLimbs (← sliceFrom input 32) : Except BuildError (List Nat)) =
      .ok (limbsOf (input.drop 32)) := by
    rw [sliceFrom_ok input 32 (by omega)]
    exact ByteArrayToLimbs_eq _
  simp only [BytesToSig, if_neg (not_not.mpr hlen)]
  rw [Builder.bind_ok (Builder.lift_ok hr _), Builder.bind_ok (Builder.lift_ok hs _),
    Builder.bind_ok (NewField_apply env _ h _), Builder.bind_ok (NewElement_apply _ _ _),
    Builder.bind_ok (NewElement_apply _ _ _), Builder.pure_apply]
  simp [sigOps]

theorem ecdsaVerification_apply (env : Gadgets) (ha sig pub : List Nat)
    (hsig : sig.length = 64) (hpub : pub.length = 65) (h : env.newFieldFails = false)
    (cs : ConstraintSystem) :
    ecdsaVerification env ha sig pub cs = (.ok (), cs ++ ecdsaOps ha sig pub) := by
  simp only [ecdsaVerification]
  rw [Builder.bind_ok (BytesToHash_apply env ha h _),
    Builder.bind_ok (BytesToPubkey_apply env pub hpub h _),
    Builder.bind_ok (BytesToSig_apply env sig hsig h _), Verify_apply]
  simp [ecdsaOps, List.append_assoc]

theorem validateSig_apply (env : Gadgets) (PayloadHash : List Nat) (Timestamp Value : Nat)
    (SigBytes PubBytes : List Nat) (ethAddr : Nat) (henv : env.constructorsSucceed = true)
    (hph : PayloadHash.length = 32) (hsig : SigBytes.length = 64) (hpub : PubBytes.length = 65)
    (cs : ConstraintSystem) :
    validateSig env PayloadHash Timestamp Value SigBytes PubBytes ethAddr cs =
      (.ok (), cs ++ validateSigOps env PayloadHash Timestamp Value SigBytes PubBytes ethAddr) := by
  obtain ⟨h1, h2, h3, h4⟩ := (constructorsSucceed_iff env).mp henv
  simp only [validateSig, if_neg (not_not.mpr hph)]
  rw [Builder.bind_ok (uintsNew_apply env h1 _),
    Builder.bind_ok (hashSumInput_apply env _ _ _ _ h2 _),
    Builder.bind_ok (ecdsaVerification_apply env _ _ _ hsig hpub h4 _),
    validateAddress_apply env PubBytes ethAddr _ h3 (by omega)]
  simp [validateSigOps, List.append_assoc]

theorem defineLoop_apply (env : Gadgets) (c : ProofOfSumCircuit)
    (henv : env.constructorsSucceed = true) :
    ∀ (is : List (Fin SumMaxItems)) (sum : Nat) (cs : ConstraintSystem),
      defineLoop env c { absDiffUppBitLen := bitLen (LimitSeconds * 2) }
          (apiAdd c.StartTime LimitSeconds) is sum cs =
        (.ok (is.foldl (fun acc i => apiAdd acc (c.Values.get i)) sum),
          cs ++ is.flatMap (recordOps env c)) := by
  intro is
  induction is with
  | nil => intro sum cs; simp [defineLoop, Builder.pure_apply]
  | cons i rest ih =>
    intro sum cs
    simp only [defineLoop]
    rw [Builder.bind_ok (validateSig_apply env _ _ _ _ _ _ henv
        (Mathlib.Vector.toList_length _) (Mathlib.Vector.toList_length _)
        (Mathlib.Vector.toList_length _) _),
      Builder.bind_ok (AssertIsLessEq_apply _ _ _ _),
      Builder.bind_ok (AssertIsLessEq_apply _ _ _ _), ih]
    simp [recordOps, List.append_assoc]

theorem Define_apply (env : Gadgets) (c : ProofOfSumCircuit)
    (henv : env.constructorsSucceed = true) (cs : ConstraintSystem) :
    Define env c cs = (.ok (), cs ++ defineOps env c) := by
  have hfin : List.finRange SumMaxItems = [0, 1] := by decide
  simp only [Define]
  rw [Builder.bind_ok (NewBoundedComparator_apply _ _),
    Builder.bind_ok (defineLoop_apply env c henv _ _ _),
    Builder.bind_ok (NewBoundedComparator_apply _ _), AssertIsLessEq_apply, hfin]
  simp [defineOps, List.append_assoc]


/-! ## The comparator assertions of `Define` -/

theorem bitLen_time : bitLen (LimitSeconds * 2) = 11 := by decide

theorem bitLen_sum : bitLen (1 <<< 62) = 63 := by decide

theorem addressOps_not_lessEq (env : Gadgets) (PubBytes : List Nat) (ethAddr : Nat) :
    ∀ op ∈ addressOps env PubBytes ethAddr, op.isLessEq = false := by
  intro op hop
  simp only [addressOps, addressRoundOps, List.mem_append, List.mem_cons, List.mem_singleton,
    List.not_mem_nil, or_false, List.mem_flatMap, List.mem_map] at hop
  rcases hop with (rfl | rfl | rfl) | ⟨i, _, rfl | ⟨j, _, rfl⟩⟩ <;> rfl

theorem validateSigOps_not_lessEq (env : Gadgets) (PayloadHash : List Nat)
    (Timestamp Value : Nat) (SigBytes PubBytes : List Nat) (ethAddr : Nat) :
    (validateSigOps env PayloadHash Timestamp Value SigBytes PubBytes ethAddr).filter
      Op.isLessEq = [] := by
  rw [List.filter_eq_nil_iff]
  intro op hop
  simp only [validateSigOps, hashOps, ecdsaOps, msgOps, pubkeyOps, sigOps, List.mem_append,
    List.mem_cons, List.mem_singleton, List.not_mem_nil, or_false] at hop
  rcases hop with ((rfl | rfl | rfl | rfl | rfl) |
    (((rfl | rfl) | (rfl | rfl | rfl)) | (rfl | rfl | rfl)) | rfl) | hop
  all_goals first
    | (simp [Op.isLessEq]; done)
    | (rw [addressOps_not_lessEq env PubBytes ethAddr _ hop]; simp)

theorem lessEqAssertions_defineOps (env : Gadgets) (c : ProofOfSumCircuit) :
    lessEqAssertions (defineOps env c) =
      [Op.assertIsLessEq 11 c.StartTime (c.Timestamps.get 0),
        Op.assertIsLessEq 11 (c.Timestamps.get 0) (apiAdd c.StartTime LimitSeconds),
        Op.assertIsLessEq 11 c.StartTime (c.Timestamps.get 1),
        Op.assertIsLessEq 11 (c.Timestamps.get 1) (apiAdd c.StartTime LimitSeconds),
        Op.assertIsLessEq 63 c.Threshold
          (apiAdd (apiAdd 0 (c.Values.get 0)) (c.Values.get 1))] := by
  simp only [lessEqAssertions, defineOps, recordOps, List.filter_append,
    validateSigOps_not_lessEq, bitLen_time, bitLen_sum]
  simp [List.filter, Op.isLessEq]


theorem lessEq_holds_iff (env : Gadgets) (k a b : Nat) (ha : a < 2 ^ 65) (hb : b < 2 ^ 65)
    (hk : k ≤ 100) :
    (Op.assertIsLessEq k a b).holds env = true ↔ a ≤ b ∧ b - a < 2 ^ k := by
  have hpow : 2 ^ k ≤ 2 ^ 100 := Nat.pow_le_pow_right (by omega) hk
  simp only [Op.holds, decide_eq_true_eq, apiSub, fieldModulus]
  constructor
  · intro h
    by_cases hab : a ≤ b
    · refine ⟨hab, ?_⟩
      omega
    · exfalso
      omega
  · rintro ⟨hab, h⟩
    omega

theorem lessEqAssertions_Define (env : Gadgets) (c : ProofOfSumCircuit)
    (henv : env.constructorsSucceed = true) :
    (Define env c []).1 = .ok () ∧
    lessEqAssertions (Define env c []).2 =
      [Op.assertIsLessEq 11 c.StartTime (c.Timestamps.get 0),
        Op.assertIsLessEq 11 (c.Timestamps.get 0) (apiAdd c.StartTime LimitSeconds),
        Op.assertIsLessEq 11 c.StartTime (c.Timestamps.get 1),
        Op.assertIsLessEq 11 (c.Timestamps.get 1) (apiAdd c.StartTime LimitSeconds),
        Op.assertIsLessEq 63 c.Threshold
          (apiAdd (apiAdd 0 (c.Values.get 0)) (c.Values.get 1))] := by
  rw [Define_apply env c henv [], List.nil_append]
  exact ⟨rfl, lessEqAssertions_defineOps env c⟩

theorem timeUpper_small (s : Nat) (hs : s < 2 ^ 64) : apiAdd s LimitSeconds = s + 600 := by
  unfold apiAdd LimitSeconds fieldModulus
  apply Nat.mod_eq_of_lt
  omega

theorem sum_small (v0 v1 : Nat) (h0 : v0 < 2 ^ 64) (h1 : v1 < 2 ^ 64) :
    apiAdd (apiAdd 0 v0) v1 = v0 + v1 := by
  unfold apiAdd fieldModulus
  rw [Nat.zero_add, Nat.mod_eq_of_lt (by omega), Nat.mod_eq_of_lt (by omega)]

/-! ## C3: the threshold assertion wraps around for a threshold near the field order -/

/-- C3, at the failing input. With both values `0` and `Threshold = fieldModulus - 1`, `Define`
returns nil and the threshold assertion it emits, the range check of `(0 - Threshold) mod p = 1`
on 63 bits, holds, although `Threshold` exceeds the sum `0`. -/
theorem Define_threshold_wraps :
    (Define sampleGadgets (sampleCircuit 0 0 0 0 0 (fieldModulus - 1)) []).1 = .ok () ∧
    thresholdAssertion (Define sampleGadgets (sampleCircuit 0 0 0 0 0 (fieldModulus - 1)) []).2 =
      some (Op.assertIsLessEq 63 (fieldModulus - 1) 0) ∧
    (Op.assertIsLessEq 63 (fieldModulus - 1) 0).holds sampleGadgets = true ∧
    apiSub 0 (fieldModulus - 1) = 1 ∧
    ¬ ((sampleCircuit 0 0 0 0 0 (fieldModulus - 1)).Threshold ≤
      (sampleCircuit 0 0 0 0 0 (fieldModulus - 1)).Values.get 0 +
        (sampleCircuit 0 0 0 0 0 (fieldModulus - 1)).Values.get 1) := by
  obtain ⟨h1, h2⟩ := lessEqAssertions_Define sampleGadgets
    (sampleCircuit 0 0 0 0 0 (fieldModulus - 1)) rfl
  refine ⟨h1, ?_, by decide, by decide, by decide⟩
  rw [thresholdAssertion, h2]
  rfl

/-! ## C4: the time window -/

/-- C4. For `StartTime` and `Timestamps[i]` in `[0, 2^64)`, the two window assertions `Define`
emits for record `i` are `AssertIsLessEq(StartTime, Timestamps[i])` and
`AssertIsLessEq(Timestamps[i], StartTime + 600)` on 11 bits, and both hold exactly when
`StartTime ≤ Timestamps[i] ≤ StartTime + 600`; so `Timestamps[i] = StartTime` and
`Timestamps[i] = StartTime + 600` are accepted, `Timestamps[i] = StartTime - 1` and
`Timestamps[i] = StartTime + 601` are rejected. -/
theorem Define_window_iff (env : Gadgets) (c : ProofOfSumCircuit)
    (henv : env.constructorsSucceed = true) (i : Fin SumMaxItems)
    (hS : c.StartTime < 2 ^ 64) (hT : c.Timestamps.get i < 2 ^ 64) :
    windowAssertions (Define env c []).2 i =
        [Op.assertIsLessEq 11 c.StartTime (c.Timestamps.get i),
          Op.assertIsLessEq 11 (c.Timestamps.get i) (c.StartTime + 600)] ∧
      ((∀ op ∈ windowAssertions (Define env c []).2 i, op.holds env = true) ↔
        c.StartTime ≤ c.Timestamps.get i ∧ c.Timestamps.get i ≤ c.StartTime + 600) ∧
      (c.Timestamps.get i = c.StartTime →
        ∀ op ∈ windowAssertions (Define env c []).2 i, op.holds env = true) ∧
      (c.Timestamps.get i = c.StartTime + 600 →
        ∀ op ∈ windowAssertions (Define env c []).2 i, op.holds env = true) ∧
      (c.Timestamps.get i + 1 = c.StartTime →
        ¬ ∀ op ∈ windowAssertions (Define env c []).2 i, op.holds env = true) ∧
      (c.Timestamps.get i = c.StartTime + 601 →
        ¬ ∀ op ∈ windowAssertions (Define env c []).2 i, op.holds env = true) := by
  have hlist : windowAssertions (Define env c []).2 i =
      [Op.assertIsLessEq 11 c.StartTime (c.Timestamps.get i),
        Op.assertIsLessEq 11 (c.Timestamps.get i) (c.StartTime + 600)] := by
    rw [windowAssertions, (lessEqAssertions_Define env c henv).2, timeUpper_small _ hS]
    fin_cases i <;> rfl
  have hiff : (∀ op ∈ windowAssertions (Define env c []).2 i, op.holds env = true) ↔
      c.StartTime ≤ c.Timestamps.get i ∧ c.Timestamps.get i ≤ c.StartTime + 600 := by
    rw [hlist]
    simp only [List.mem_cons, List.mem_singleton, List.not_mem_nil, or_false,
      forall_eq_or_imp, forall_eq]
    rw [lessEq_holds_iff env 11 _ _ (by omega) (by omega) (by omega),
      lessEq_holds_iff env 11 _ _ (by omega) (by omega) (by omega)]
    omega
  refine ⟨hlist, hiff, ?_, ?_, ?_, ?_⟩
  · intro h; exact hiff.mpr (by omega)
  · intro h; exact hiff.mpr (by omega)
  · intro h hall; have := hiff.mp hall; omega
  · intro h hall; have := hiff.mp hall; omega

/-- C4 at record 1 of the assignment with `StartTime = 1000` and timestamps `1000`, `1600`. -/
theorem Define_window_iff_witness :
    sampleGadgets.constructorsSucceed = true ∧
    (sampleCircuit 1000 1600 300 250 1000 500).StartTime < 2 ^ 64 ∧
    (sampleCircuit 1000 1600 300 250 1000 500).Timestamps.get 1 < 2 ^ 64 ∧
    ((∀ op ∈ windowAssertions (Define sampleGadgets
        (sampleCircuit 1000 1600 300 250 1000 500) []).2 1, op.holds sampleGadgets = true) ↔
      (sampleCircuit 1000 1600 300 250 1000 500).StartTime ≤
          (sampleCircuit 1000 1600 300 250 1000 500).Timestamps.get 1 ∧
        (sampleCircuit 1000 1600 300 250 1000 500).Timestamps.get 1 ≤
          (sampleCircuit 1000 1600 300 250 1000 500).StartTime + 600) :=
  ⟨rfl, by decide, by decide,
    (Define_window_iff sampleGadgets (sampleCircuit 1000 1600 300 250 1000 500) rfl 1
      (by decide) (by decide)).2.1⟩

/-! ## C5: completeness of the range and sum assertions -/

/-- C5 as stated fails: with values `2^63` and `0`, threshold `0` and both timestamps equal to
`StartTime = 0`, every arithmetic invariant holds, but the threshold assertion, the range check
of `2^63` on 63 bits, does not. -/
theorem Define_range_sum_incomplete :
    (sampleCircuit 0 0 (2 ^ 63) 0 0 0).StartTime < 2 ^ 64 ∧
    (∀ i, (sampleCircuit 0 0 (2 ^ 63) 0 0 0).Timestamps.get i < 2 ^ 64 ∧
      (sampleCircuit 0 0 (2 ^ 63) 0 0 0).Values.get i < 2 ^ 64 ∧
      (sampleCircuit 0 0 (2 ^ 63) 0 0 0).StartTime ≤
        (sampleCircuit 0 0 (2 ^ 63) 0 0 0).Timestamps.get i ∧
      (sampleCircuit 0 0 (2 ^ 63) 0 0 0).Timestamps.get i ≤
        (sampleCircuit 0 0 (2 ^ 63) 0 0 0).StartTime + 600) ∧
    (sampleCircuit 0 0 (2 ^ 63) 0 0 0).Threshold ≤
      (sampleCircuit 0 0 (2 ^ 63) 0 0 0).Values.get 0 +
        (sampleCircuit 0 0 (2 ^ 63) 0 0 0).Values.get 1 ∧
    ¬ ∀ op ∈ lessEqAssertions (Define sampleGadgets (sampleCircuit 0 0 (2 ^ 63) 0 0 0) []).2,
      op.holds sampleGadgets = true := by
  refine ⟨by decide, by decide, by decide, ?_⟩
  rw [(lessEqAssertions_Define sampleGadgets (sampleCircuit 0 0 (2 ^ 63) 0 0 0) rfl).2]
  intro h
  have h5 := h (Op.assertIsLessEq 63 0 (apiAdd (apiAdd 0 (2 ^ 63)) 0)) (by
    simp only [List.mem_cons]
    right; right; right; right; left
    rfl)
  revert h5
  decide

/-- C5, amended. For timestamps, values and `StartTime` in `[0, 2^64)`, if both timestamps lie
in `[StartTime, StartTime + 600]`, `Threshold ≤ Values[0] + Values[1]` and the excess
`Values[0] + Values[1] - Threshold` is below `2^63`, then `Define` returns nil and the five
comparator assertions it emits (four window assertions, one threshold assertion) all hold. -/
theorem Define_range_sum_complete (env : Gadgets) (c : ProofOfSumCircuit)
    (henv : env.constructorsSucceed = true) (hS : c.StartTime < 2 ^ 64)
    (hT : ∀ i, c.Timestamps.get i < 2 ^ 64) (hV : ∀ i, c.Values.get i < 2 ^ 64)
    (hwin : ∀ i, c.StartTime ≤ c.Timestamps.get i ∧ c.Timestamps.get i ≤ c.StartTime + 600)
    (hthr : c.Threshold ≤ c.Values.get 0 + c.Values.get 1)
    (hgap : c.Values.get 0 + c.Values.get 1 - c.Threshold < 2 ^ 63) :
    (Define env c []).1 = .ok () ∧ (lessEqAssertions (Define env c []).2).length = 5 ∧
      ∀ op ∈ lessEqAssertions (Define env c []).2, op.holds env = true := by
  obtain ⟨h1, h2⟩ := lessEqAssertions_Define env c henv
  refine ⟨h1, by rw [h2]; rfl, ?_⟩
  rw [h2, timeUpper_small _ hS, sum_small _ _ (hV 0) (hV 1)]
  have hT0 := hT 0
  have hT1 := hT 1
  have hV0 := hV 0
  have hV1 := hV 1
  have hw0 := hwin 0
  have hw1 := hwin 1
  simp only [List.mem_cons, List.mem_singleton, List.not_mem_nil, or_false,
    forall_eq_or_imp, forall_eq]
  rw [lessEq_holds_iff env 11 _ _ (by omega) (by omega) (by omega),
    lessEq_holds_iff env 11 _ _ (by omega) (by omega) (by omega),
    lessEq_holds_iff env 11 _ _ (by omega) (by omega) (by omega),
    lessEq_holds_iff env 11 _ _ (by omega) (by omega) (by omega),
    lessEq_holds_iff env 63 _ _ (by omega) (by omega) (by omega)]
  omega

/-- C5, amended, at values `300` and `250`, threshold `500`, `StartTime = 1000` and timestamps
`1000` and `1600`. -/
theorem Define_range_sum_complete_witness :
    (Define sampleGadgets (sampleCircuit 1000 1600 300 250 1000 500) []).1 = .ok () ∧
    (lessEqAssertions (Define sampleGadgets
      (sampleCircuit 1000 1600 300 250 1000 500) []).2).length = 5 ∧
    ∀ op ∈ lessEqAssertions (Define sampleGadgets
      (sampleCircuit 1000 1600 300 250 1000 500) []).2, op.holds sampleGadgets = true :=
  Define_range_sum_complete sampleGadgets (sampleCircuit 1000 1600 300 250 1000 500) rfl
    (by decide) (by decide) (by decide) (by decide) (by decide) (by decide)


/-! ## C6: the commitment hash -/

theorem toBytes_eq (n : Nat) : ∀ v, toBytes n v = (List.range n).map (fun i => v / 256 ^ i % 256) := by
  induction n with
  | zero => intro v; simp [toBytes]
  | succ n ih =>
    intro v
    rw [toBytes, ih, List.range_succ_eq_map, List.map_cons, List.map_map]
    simp only [pow_zero, Nat.div_one, List.cons.injEq, true_and]
    apply List.map_congr_left
    intro j _
    simp only [Function.comp, pow_succ, Nat.div_div_eq_div_mul]
    rw [Nat.mul_comm]

theorem toBytes_eq_LE8 (v : Nat) : toBytes 8 v = LE8 v := toBytes_eq 8 v

theorem fromBytes_LE8 (x : Nat) (hx : x < 2 ^ 64) : fromBytes (LE8 x) = x := by
  simp only [LE8, List.range, List.range.loop, List.map, fromBytes]
  norm_num
  omega

/-- C6. For every 32-byte payload hash `h` and every timestamp `t` and value `v` in `[0, 2^64)`,
`hashSumInput` returns the SHA-256 digest of the 48-byte message `h ++ LE8(t) ++ LE8(v)`, where
`LE8(x)` are the eight little-endian bytes of `x` (they recompose to `x`); the hasher is fed
these three parts in this order and nothing else, and `Sum` is called once, on this message. -/
theorem hashSumInput_digest (env : Gadgets) (uapi : BinaryField) (h : List Nat) (t v : Nat)
    (cs : ConstraintSystem) (hnew : env.sha2NewFails = false) (hlen : h.length = 32)
    (ht : t < 2 ^ 64) (hv : v < 2 ^ 64) :
    (hashSumInput env uapi h t v cs).1 = .ok (env.sha256 (h ++ LE8 t ++ LE8 v)) ∧
      (h ++ LE8 t ++ LE8 v).length = 48 ∧
      fromBytes (LE8 t) = t ∧ fromBytes (LE8 v) = v ∧
      (hashSumInput env uapi h t v cs).2 =
        cs ++ [Op.sha2New, Op.valueOf t, Op.valueOf v, Op.sha2Sum (h ++ LE8 t ++ LE8 v)] := by
  rw [hashSumInput_apply env uapi h t v hnew cs]
  simp only [hashMessage, hashOps, toBytes_eq_LE8]
  refine ⟨trivial, ?_, fromBytes_LE8 t ht, fromBytes_LE8 v hv, trivial⟩
  simp [LE8, hlen]

/-- C6 at the payload hash of 32 zero bytes, timestamp `1000` and value `300`. -/
theorem hashSumInput_digest_witness :
    (hashSumInput sampleGadgets {} (List.replicate 32 0) 1000 300 []).1 =
        .ok (sampleGadgets.sha256 (List.replicate 32 0 ++ LE8 1000 ++ LE8 300)) ∧
      (List.replicate 32 0 ++ LE8 1000 ++ LE8 300).length = 48 ∧
      fromBytes (LE8 1000) = 1000 ∧ fromBytes (LE8 300) = 300 ∧
      (hashSumInput sampleGadgets {} (List.replicate 32 0) 1000 300 []).2 =
        [] ++ [Op.sha2New, Op.valueOf 1000, Op.valueOf 300,
          Op.sha2Sum (List.replicate 32 0 ++ LE8 1000 ++ LE8 300)] :=
  hashSumInput_digest sampleGadgets {} (List.replicate 32 0) 1000 300 [] rfl rfl
    (by decide) (by decide)


/-! ## C7 and C8: the length errors of `validateSig` -/

theorem validateSig_payload_error (env : Gadgets) (PayloadHash : List Nat)
    (Timestamp Value : Nat) (SigBytes PubBytes : List Nat) (ethAddr : Nat)
    (hph : PayloadHash.length ≠ 32) (cs : ConstraintSystem) :
    validateSig env PayloadHash Timestamp Value SigBytes PubBytes ethAddr cs =
      (.error .invalidPayloadHashLength, cs) := by
  simp only [validateSig, if_pos hph]
  rfl

theorem ecdsaVerification_pubkey_error (env : Gadgets) (ha sig pub : List Nat)
    (hpub : pub.length ≠ 65) (h : env.newFieldFails = false) (cs : ConstraintSystem) :
    ecdsaVerification env ha sig pub cs = (.error .invalidPubkeyLength, cs ++ msgOps ha) := by
  simp only [ecdsaVerification]
  rw [Builder.bind_ok (BytesToHash_apply env ha h _),
    Builder.bind_error (BytesToPubkey_error env pub hpub _)]

theorem ecdsaVerification_sig_error (env : Gadgets) (ha sig pub : List Nat)
    (hpub : pub.length = 65) (hsig : sig.length ≠ 64) (h : env.newFieldFails = false)
    (cs : ConstraintSystem) :
    ecdsaVerification env ha sig pub cs =
      (.error .invalidSigLength, cs ++ msgOps ha ++ pubkeyOps pub) := by
  simp only [ecdsaVerification]
  rw [Builder.bind_ok (BytesToHash_apply env ha h _),
    Builder.bind_ok (BytesToPubkey_apply env pub hpub h _),
    Builder.bind_error (BytesToSig_error env sig hsig _)]

theorem validateSig_pubkey_error (env : Gadgets) (PayloadHash : List Nat)
    (Timestamp Value : Nat) (SigBytes PubBytes : List Nat) (ethAddr : Nat)
    (henv : env.constructorsSucceed = true) (hph : PayloadHash.length = 32)
    (hpub : PubBytes.length ≠ 65) (cs : ConstraintSystem) :
    validateSig env PayloadHash Timestamp Value SigBytes PubBytes ethAddr cs =
      (.error .invalidPubkeyLength, cs ++ ([Op.uintsNew] ++ hashOps PayloadHash Timestamp Value ++
        msgOps (env.sha256 (hashMessage PayloadHash Timestamp Value)))) := by
  obtain ⟨h1, h2, _, h4⟩ := (constructorsSucceed_iff env).mp henv
  simp only [validateSig, if_neg (not_not.mpr hph)]
  rw [Builder.bind_ok (uintsNew_apply env h1 _),
    Builder.bind_ok (hashSumInput_apply env _ _ _ _ h2 _),
    Builder.bind_error (ecdsaVerification_pubkey_error env _ _ _ hpub h4 _)]
  simp [List.append_assoc]

theorem validateSig_sig_error (env : Gadgets) (PayloadHash : List Nat)
    (Timestamp Value : Nat) (SigBytes PubBytes : List Nat) (ethAddr : Nat)
    (henv : env.constructorsSucceed = true) (hph : PayloadHash.length = 32)
    (hpub : PubBytes.length = 65) (hsig : SigBytes.length ≠ 64) (cs : ConstraintSystem) :
    validateSig env PayloadHash Timestamp Value SigBytes PubBytes ethAddr cs =
      (.error .invalidSigLength, cs ++ ([Op.uintsNew] ++ hashOps PayloadHash Timestamp Value ++
        msgOps (env.sha256 (hashMessage PayloadHash Timestamp Value)) ++ pubkeyOps PubBytes)) := by
  obtain ⟨h1, h2, _, h4⟩ := (constructorsSucceed_iff env).mp henv
  simp only [validateSig, if_neg (not_not.mpr hph)]
  rw [Builder.bind_ok (uintsNew_apply env h1 _),
    Builder.bind_ok (hashSumInput_apply env _ _ _ _ h2 _),
    Builder.bind_error (ecdsaVerification_sig_error env _ _ _ hpub hsig h4 _)]
  simp [List.append_assoc]

/-- C7 as stated fails: called on an empty constraint system with a payload hash of 32 bytes
and a public key of 64 bytes, `validateSig` returns the public-key length error after it has
emitted seven operations: the `uints` constructor, the SHA-256 gadget on the commitment
message, and the emulated element of the digest. -/
theorem validateSig_error_after_emission :
    (List.replicate 64 0).length ≠ 65 ∧
    (validateSig sampleGadgets (List.replicate 32 0) 1000 300 (List.replicate 64 0)
      (List.replicate 64 0) sampleAddress []).1 = .error .invalidPubkeyLength ∧
    (validateSig sampleGadgets (List.replicate 32 0) 1000 300 (List.replicate 64 0)
      (List.replicate 64 0) sampleAddress []).2 ≠ [] ∧
    (validateSig sampleGadgets (List.replicate 32 0) 1000 300 (List.replicate 64 0)
      (List.replicate 64 0) sampleAddress []).2.length = 7 := by
  rw [validateSig_pubkey_error sampleGadgets (List.replicate 32 0) 1000 300
    (List.replicate 64 0) (List.replicate 64 0) sampleAddress rfl rfl (by decide) []]
  refine ⟨by decide, rfl, ?_, ?_⟩
  · simp
  · simp [hashOps, msgOps]

/-- C7, amended. With a payload hash whose length is not 32, `validateSig` returns that error
and leaves the constraint system as it found it. With a payload hash of 32 bytes (and the
gadget constructors succeeding), a public key whose length is not 65 is rejected by
`BytesToPubkey` after the `uints` constructor, the commitment hash and the digest element have
been emitted, and a signature whose length is not 64 (the public key having 65 bytes) is
rejected by `BytesToSig` after these and the two public-key elements have been emitted; in
both cases neither the ECDSA assertion nor any operation of the address check is emitted. -/
theorem validateSig_length_errors (env : Gadgets) (PayloadHash : List Nat)
    (Timestamp Value : Nat) (SigBytes PubBytes : List Nat) (ethAddr : Nat)
    (cs : ConstraintSystem) (henv : env.constructorsSucceed = true) :
    (PayloadHash.length ≠ 32 →
      validateSig env PayloadHash Timestamp Value SigBytes PubBytes ethAddr cs =
        (.error .invalidPayloadHashLength, cs)) ∧
    (PayloadHash.length = 32 → PubBytes.length ≠ 65 →
      validateSig env PayloadHash Timestamp Value SigBytes PubBytes ethAddr cs =
        (.error .invalidPubkeyLength,
          cs ++ [Op.uintsNew, Op.sha2New, Op.valueOf Timestamp, Op.valueOf Value,
            Op.sha2Sum (PayloadHash ++ LE8 Timestamp ++ LE8 Value),
            Op.newField .Secp256k1Fr,
            Op.newElement .Secp256k1Fr
              (limbsOf (env.sha256 (PayloadHash ++ LE8 Timestamp ++ LE8 Value)))])) ∧
    (PayloadHash.length = 32 → PubBytes.length = 65 → SigBytes.length ≠ 64 →
      validateSig env PayloadHash Timestamp Value SigBytes PubBytes ethAddr cs =
        (.error .invalidSigLength,
          cs ++ [Op.uintsNew, Op.sha2New, Op.valueOf Timestamp, Op.valueOf Value,
            Op.sha2Sum (PayloadHash ++ LE8 Timestamp ++ LE8 Value),
            Op.newField .Secp256k1Fr,
            Op.newElement .Secp256k1Fr
              (limbsOf (env.sha256 (PayloadHash ++ LE8 Timestamp ++ LE8 Value))),
            Op.newField .Secp256k1Fp,
            Op.newElement .Secp256k1Fp (limbsOf ((PubBytes.take 33).drop 1)),
            Op.newElement .Secp256k1Fp (limbsOf (PubBytes.drop 33))])) := by
  refine ⟨fun hph => validateSig_payload_error env _ _ _ _ _ _ hph cs, ?_, ?_⟩
  · intro hph hpub
    rw [validateSig_pubkey_error env _ _ _ _ _ _ henv hph hpub cs]
    simp [hashOps, msgOps, hashMessage, toBytes_eq_LE8]
  · intro hph hpub hsig
    rw [validateSig_sig_error env _ _ _ _ _ _ henv hph hpub hsig cs]
    simp [hashOps, msgOps, pubkeyOps, hashMessage, toBytes_eq_LE8]

/-- C7, amended, at a payload hash of 31 bytes, where the error leaves the constraint system
(holding one earlier operation) unchanged, and at a public key of 64 bytes, where the error
comes after seven operations. -/
theorem validateSig_length_errors_witness :
    sampleGadgets.constructorsSucceed = true ∧ (List.replicate 31 0).length ≠ 32 ∧
    validateSig sampleGadgets (List.replicate 31 0) 1000 300 (List.replicate 64 0)
        (List.range 65) sampleAddress [Op.newBoundedComparator 1200] =
      (.error .invalidPayloadHashLength, [Op.newBoundedComparator 1200]) ∧
    validateSig sampleGadgets (List.replicate 32 0) 1000 300 (List.replicate 64 0)
        (List.range 64) sampleAddress [Op.newBoundedComparator 1200] =
      (.error .invalidPubkeyLength,
        [Op.newBoundedComparator 1200] ++ [Op.uintsNew, Op.sha2New, Op.valueOf 1000,
          Op.valueOf 300, Op.sha2Sum (List.replicate 32 0 ++ LE8 1000 ++ LE8 300),
          Op.newField .Secp256k1Fr,
          Op.newElement .Secp256k1Fr
            (limbsOf (sampleGadgets.sha256 (List.replicate 32 0 ++ LE8 1000 ++ LE8 300)))]) :=
  ⟨rfl, by decide,
    (validateSig_length_errors sampleGadgets (List.replicate 31 0) 1000 300
      (List.replicate 64 0) (List.range 65) sampleAddress [Op.newBoundedComparator 1200] rfl).1
      (by decide),
    (validateSig_length_errors sampleGadgets (List.replicate 32 0) 1000 300
      (List.replicate 64 0) (List.range 64) sampleAddress [Op.newBoundedComparator 1200]
      rfl).2.1 (by decide) (by decide)⟩

/-- C8. With the gadget constructors succeeding, `validateSig` returns an error exactly when
the payload hash does not have 32 bytes, or the public key does not have 65 bytes, or the
signature does not have 64 bytes; `BytesToSig` returns an error exactly when its input does not
have 64 bytes, and `BytesToPubkey` exactly when its input does not have 65 bytes. -/
theorem length_errors_iff (env : Gadgets) (PayloadHash : List Nat) (Timestamp Value : Nat)
    (SigBytes PubBytes : List Nat) (ethAddr : Nat) (cs : ConstraintSystem)
    (henv : env.constructorsSucceed = true) :
    (isError (validateSig env PayloadHash Timestamp Value SigBytes PubBytes ethAddr cs).1 = true ↔
        PayloadHash.length ≠ 32 ∨ PubBytes.length ≠ 65 ∨ SigBytes.length ≠ 64) ∧
      (isError (BytesToSig env SigBytes cs).1 = true ↔ SigBytes.length ≠ 64) ∧
      (isError (BytesToPubkey env PubBytes cs).1 = true ↔ PubBytes.length ≠ 65) := by
  have h4 := ((constructorsSucceed_iff env).mp henv).2.2.2
  refine ⟨?_, ?_, ?_⟩
  · by_cases hph : PayloadHash.length = 32
    · by_cases hpub : PubBytes.length = 65
      · by_cases hsig : SigBytes.length = 64
        · rw [validateSig_apply env _ _ _ _ _ _ henv hph hsig hpub cs]
          simp [isError, hph, hpub, hsig]
        · rw [validateSig_sig_error env _ _ _ _ _ _ henv hph hpub hsig cs]
          simp [isError, hsig]
      · rw [validateSig_pubkey_error env _ _ _ _ _ _ henv hph hpub cs]
        simp [isError, hpub]
    · rw [validateSig_payload_error env _ _ _ _ _ _ hph cs]
      simp [isError, hph]
  · by_cases hsig : SigBytes.length = 64
    · rw [BytesToSig_apply env _ hsig h4 cs]
      simp [isError, hsig]
    · rw [BytesToSig_error env _ hsig cs]
      simp [isError, hsig]
  · by_cases hpub : PubBytes.length = 65
    · rw [BytesToPubkey_apply env _ hpub h4 cs]
      simp [isError, hpub]
    · rw [BytesToPubkey_error env _ hpub cs]
      simp [isError, hpub]

/-- C8 at a well-formed call (32, 64 and 65 bytes) in the sample environment. -/
theorem length_errors_iff_witness :
    sampleGadgets.constructorsSucceed = true ∧
    (isError (validateSig sampleGadgets (List.replicate 32 0) 1000 300 (List.replicate 64 0)
        (List.range 65) sampleAddress []).1 = true ↔
      (List.replicate 32 0).length ≠ 32 ∨ (List.range 65).length ≠ 65 ∨
        (List.replicate 64 0).length ≠ 64) ∧
    (isError (BytesToSig sampleGadgets (List.replicate 64 0) []).1 = true ↔
      (List.replicate 64 0).length ≠ 64) ∧
    (isError (BytesToPubkey sampleGadgets (List.range 65) []).1 = true ↔
      (List.range 65).length ≠ 65) :=
  ⟨rfl, length_errors_iff sampleGadgets (List.replicate 32 0) 1000 300 (List.replicate 64 0)
    (List.range 65) sampleAddress [] rfl⟩

/-! ## C9: round trip of a 64-bit integer through its big-endian bytes -/

theorem BE8_length (x : Nat) : (BE8 x).length = 8 := by simp [BE8]

theorem BE8_byte (x : Nat) : ∀ b ∈ BE8 x, b < 256 := by
  intro b hb
  simp only [BE8, List.mem_map, List.mem_range] at hb
  obtain ⟨i, _, rfl⟩ := hb
  exact Nat.mod_lt _ (by decide)

theorem beValue_BE8 (x : Nat) (hx : x < 2 ^ 64) : beValue (BE8 x) = x := by
  simp only [BE8, List.range, List.range.loop, List.map, beValue, List.length_cons,
    List.length_nil]
  norm_num
  omega

theorem BE8_beValue (bs : List Nat) (hlen : bs.length = 8) (hb : ∀ b ∈ bs, b < 256) :
    BE8 (beValue bs) = bs := by
  match bs, hlen with
  | [b0, b1, b2, b3, b4, b5, b6, b7], _ =>
    have h0 : b0 < 256 := hb b0 (by simp)
    have h1 : b1 < 256 := hb b1 (by simp)
    have h2 : b2 < 256 := hb b2 (by simp)
    have h3 : b3 < 256 := hb b3 (by simp)
    have h4 : b4 < 256 := hb b4 (by simp)
    have h5 : b5 < 256 := hb b5 (by simp)
    have h6 : b6 < 256 := hb b6 (by simp)
    have h7 : b7 < 256 := hb b7 (by simp)
    simp only [BE8, List.range, List.range.loop, List.map, beValue, List.length_cons,
      List.length_nil]
    norm_num
    refine ⟨?_, ?_, ?_, ?_, ?_, ?_, ?_, ?_⟩ <;> omega

theorem limbsOf_of_length_eight (bs : List Nat) (hlen : bs.length = 8)
    (hb : ∀ b ∈ bs, b < 256) : limbsOf bs = [beValue bs] := by
  have hl : (limbsOf bs).length = 1 := by rw [limbsOf_length, hlen]
  have hv := limbsValue_limbsOf bs hb
  match hlim : limbsOf bs, hl with
  | [l], _ =>
    rw [hlim] at hv
    simp only [limbsValue, Nat.mul_zero, Nat.add_zero] at hv
    rw [hv]

/-- C9. For every integer `x` with `0 ≤ x < 2^64`, `ByteArrayToLimbs` on the 8-byte big-endian
encoding of `x` returns the single limb `x`; and for every 8 bytes, the big-endian bytes of the
single limb returned are those 8 bytes. -/
theorem ByteArrayToLimbs_roundtrip (x : Nat) (hx : x < 2 ^ 64) :
    ByteArrayToLimbs (BE8 x) = .ok [x] ∧
      ∀ bs : List Nat, bs.length = 8 → (∀ b ∈ bs, b < 256) →
        ∃ l, ByteArrayToLimbs bs = .ok [l] ∧ l < 2 ^ 64 ∧ BE8 l = bs := by
  constructor
  · rw [ByteArrayToLimbs_eq, limbsOf_of_length_eight _ (BE8_length x) (BE8_byte x),
      beValue_BE8 x hx]
  · intro bs hlen hb
    refine ⟨beValue bs, ?_, ?_, BE8_beValue bs hlen hb⟩
    · rw [ByteArrayToLimbs_eq, limbsOf_of_length_eight bs hlen hb]
    · have := beValue_lt bs hb
      rw [hlen] at this
      calc beValue bs < 256 ^ 8 := this
        _ = 2 ^ 64 := by norm_num

/-- C9 at the largest 64-bit integer. -/
theorem ByteArrayToLimbs_roundtrip_witness :
    2 ^ 64 - 1 < 2 ^ 64 ∧ ByteArrayToLimbs (BE8 (2 ^ 64 - 1)) = .ok [2 ^ 64 - 1] :=
  ⟨by decide, (ByteArrayToLimbs_roundtrip (2 ^ 64 - 1) (by decide)).1⟩


/-! ## C10: reconstruction of the public key -/

/-- C10. For every 65-byte input (bytes in `0..255`), with the field constructor succeeding,
`BytesToPubkey` returns a public key whose `X` limbs are `ByteArrayToLimbs(in[1:33])` and whose
`Y` limbs are `ByteArrayToLimbs(in[33:])`, four limbs each, so that `X` and `Y` are the
big-endian integers of bytes `1..32` and `33..64`; byte 0 does not influence the result:
replacing it by any other value leaves the returned key and the emitted operations the
same. -/
theorem BytesToPubkey_spec (env : Gadgets) (input : List Nat) (cs : ConstraintSystem)
    (hlen : input.length = 65) (hb : ∀ b ∈ input, b < 256) (hnew : env.newFieldFails = false) :
    ∃ pub, (BytesToPubkey env input cs).1 = .ok pub ∧
      ByteArrayToLimbs ((input.take 33).drop 1) = .ok pub.X.Limbs ∧
      ByteArrayToLimbs (input.drop 33) = .ok pub.Y.Limbs ∧
      pub.X.Limbs.length = 4 ∧ pub.Y.Limbs.length = 4 ∧
      limbsValue pub.X.Limbs = beValue ((input.take 33).drop 1) ∧
      limbsValue pub.Y.Limbs = beValue (input.drop 33) ∧
      ∀ b0 : Nat, BytesToPubkey env (b0 :: input.drop 1) cs = BytesToPubkey env input cs := by
  have hbx : ∀ b ∈ (input.take 33).drop 1, b < 256 := fun b h =>
    hb b (List.mem_of_mem_take (List.mem_of_mem_drop h))
  have hby : ∀ b ∈ input.drop 33, b < 256 := fun b h => hb b (List.mem_of_mem_drop h)
  refine ⟨{ X := { Limbs := limbsOf ((input.take 33).drop 1) },
            Y := { Limbs := limbsOf (input.drop 33) } }, ?_, ByteArrayToLimbs_eq _,
    ByteArrayToLimbs_eq _, ?_, ?_, limbsValue_limbsOf _ hbx, limbsValue_limbsOf _ hby, ?_⟩
  · rw [BytesToPubkey_apply env input hlen hnew cs]
  · rw [limbsOf_length]
    simp only [List.length_drop, List.length_take, hlen]
    rfl
  · rw [limbsOf_length]
    simp only [List.length_drop, hlen]
  · intro b0
    have hlen2 : (b0 :: input.drop 1).length = 65 := by
      simp only [List.length_cons, List.length_drop, hlen]
    have hx : ((b0 :: input.drop 1).take 33).drop 1 = (input.take 33).drop 1 := by
      match input, hlen with
      | _ :: rest, _ => simp
    have hy : (b0 :: input.drop 1).drop 33 = input.drop 33 := by
      match input, hlen with
      | _ :: rest, _ => simp
    rw [BytesToPubkey_apply env _ hlen2 hnew cs, BytesToPubkey_apply env input hlen hnew cs]
    simp only [pubkeyOps, hx, hy]

/-- C10 at the 65 bytes `0, 1, .., 64` in the sample environment. -/
theorem BytesToPubkey_spec_witness :
    (List.range 65).length = 65 ∧ (∀ b ∈ List.range 65, b < 256) ∧
    ∃ pub, (BytesToPubkey sampleGadgets (List.range 65) []).1 = .ok pub ∧
      ByteArrayToLimbs (((List.range 65).take 33).drop 1) = .ok pub.X.Limbs ∧
      ByteArrayToLimbs ((List.range 65).drop 33) = .ok pub.Y.Limbs ∧
      pub.X.Limbs.length = 4 ∧ pub.Y.Limbs.length = 4 ∧
      limbsValue pub.X.Limbs = beValue (((List.range 65).take 33).drop 1) ∧
      limbsValue pub.Y.Limbs = beValue ((List.range 65).drop 33) ∧
      ∀ b0 : Nat, BytesToPubkey sampleGadgets (b0 :: (List.range 65).drop 1) [] =
        BytesToPubkey sampleGadgets (List.range 65) [] :=
  ⟨by decide, by decide,
    BytesToPubkey_spec sampleGadgets (List.range 65) [] (by decide) (by decide) rfl⟩

/-! ## C11: reconstruction of the signature and of the message -/

/-- C11. For every 64-byte input (bytes in `0..255`), with the field constructor succeeding,
`BytesToSig` returns a signature whose `R` limbs are `ByteArrayToLimbs(in[:32])` and whose `S`
limbs are `ByteArrayToLimbs(in[32:])`, four limbs each, so that `R` and `S` are the big-endian
integers of the first and of the last 32 bytes; and for every 32-byte digest `BytesToHash`
returns the element whose limbs are `ByteArrayToLimbs(digest)`, the big-endian integer of the
digest. -/
theorem BytesToSig_BytesToHash_spec (env : Gadgets) (input digest : List Nat)
    (cs : ConstraintSystem) (hlen : input.length = 64) (hb : ∀ b ∈ input, b < 256)
    (hdlen : digest.length = 32) (hdb : ∀ b ∈ digest, b < 256)
    (hnew : env.newFieldFails = false) :
    (∃ sig, (BytesToSig env input cs).1 = .ok sig ∧
      ByteArrayToLimbs (input.take 32) = .ok sig.R.Limbs ∧
      ByteArrayToLimbs (input.drop 32) = .ok sig.S.Limbs ∧
      sig.R.Limbs.length = 4 ∧ sig.S.Limbs.length = 4 ∧
      limbsValue sig.R.Limbs = beValue (input.take 32) ∧
      limbsValue sig.S.Limbs = beValue (input.drop 32)) ∧
    (∃ msg, (BytesToHash env digest cs).1 = .ok msg ∧
      ByteArrayToLimbs digest = .ok msg.Limbs ∧ msg.Limbs.length = 4 ∧
      limbsValue msg.Limbs = beValue digest) := by
  have hbr : ∀ b ∈ input.take 32, b < 256 := fun b h => hb b (List.mem_of_mem_take h)
  have hbs : ∀ b ∈ input.drop 32, b < 256 := fun b h => hb b (List.mem_of_mem_drop h)
  constructor
  · refine ⟨{ R := { Limbs := limbsOf (input.take 32) },
              S := { Limbs := limbsOf (input.drop 32) } }, ?_, ByteArrayToLimbs_eq _,
      ByteArrayToLimbs_eq _, ?_, ?_, limbsValue_limbsOf _ hbr, limbsValue_limbsOf _ hbs⟩
    · rw [BytesToSig_apply env input hlen hnew cs]
      simp only [List.drop_zero]
    · rw [limbsOf_length]
      simp only [List.length_take, hlen]
      rfl
    · rw [limbsOf_length]
      simp only [List.length_drop, hlen]
  · refine ⟨{ Limbs := limbsOf digest }, ?_, ByteArrayToLimbs_eq _, ?_,
      limbsValue_limbsOf _ hdb⟩
    · rw [BytesToHash_apply env digest hnew cs]
    · rw [limbsOf_length, hdlen]

/-- C11 at the signature bytes `0, 1, .., 63` and the digest bytes `0, 1, .., 31`. -/
theorem BytesToSig_BytesToHash_spec_witness :
    (List.range 64).length = 64 ∧ (List.range 32).length = 32 ∧
    (∃ sig, (BytesToSig sampleGadgets (List.range 64) []).1 = .ok sig ∧
      ByteArrayToLimbs ((List.range 64).take 32) = .ok sig.R.Limbs ∧
      ByteArrayToLimbs ((List.range 64).drop 32) = .ok sig.S.Limbs ∧
      sig.R.Limbs.length = 4 ∧ sig.S.Limbs.length = 4 ∧
      limbsValue sig.R.Limbs = beValue ((List.range 64).take 32) ∧
      limbsValue sig.S.Limbs = beValue ((List.range 64).drop 32)) ∧
    (∃ msg, (BytesToHash sampleGadgets (List.range 32) []).1 = .ok msg ∧
      ByteArrayToLimbs (List.range 32) = .ok msg.Limbs ∧ msg.Limbs.length = 4 ∧
      limbsValue msg.Limbs = beValue (List.range 32)) :=
  ⟨by decide, by decide,
    BytesToSig_BytesToHash_spec sampleGadgets (List.range 64) (List.range 32) [] (by decide)
      (by decide) (by decide) (by decide) rfl⟩

/-! ## C12: the threshold comparison is `≥` -/

theorem thresholdAssertion_Define (env : Gadgets) (c : ProofOfSumCircuit)
    (henv : env.constructorsSucceed = true) :
    thresholdAssertion (Define env c []).2 =
      some (Op.assertIsLessEq 63 c.Threshold
        (apiAdd (apiAdd 0 (c.Values.get 0)) (c.Values.get 1))) := by
  rw [thresholdAssertion, (lessEqAssertions_Define env c henv).2]
  rfl

/-- C12. For values in `[0, 2^64)` and a threshold in `[0, 2^64]`, the threshold assertion
`Define` emits, `AssertIsLessEq(Threshold, 0 + Values[0] + Values[1])` on 63 bits, holds when
`Threshold = Values[0] + Values[1]` and does not hold when
`Threshold = Values[0] + Values[1] + 1`. -/
theorem Define_threshold_boundary (env : Gadgets) (c : ProofOfSumCircuit)
    (henv : env.constructorsSucceed = true) (hV0 : c.Values.get 0 < 2 ^ 64)
    (hV1 : c.Values.get 1 < 2 ^ 64) (hthr : c.Threshold ≤ 2 ^ 64) :
    ∃ op, thresholdAssertion (Define env c []).2 = some op ∧
      op = Op.assertIsLessEq 63 c.Threshold (c.Values.get 0 + c.Values.get 1) ∧
      (c.Threshold = c.Values.get 0 + c.Values.get 1 → op.holds env = true) ∧
      (c.Threshold = c.Values.get 0 + c.Values.get 1 + 1 → op.holds env = false) := by
  refine ⟨_, thresholdAssertion_Define env c henv, ?_, ?_, ?_⟩
  · rw [sum_small _ _ hV0 hV1]
  · intro h
    rw [sum_small _ _ hV0 hV1, lessEq_holds_iff env 63 _ _ (by omega) (by omega) (by omega)]
    omega
  · intro h
    rw [sum_small _ _ hV0 hV1, Bool.eq_false_iff]
    intro hh
    rw [lessEq_holds_iff env 63 _ _ (by omega) (by omega) (by omega)] at hh
    omega

/-- C12 at values `300` and `250` with threshold `550`. -/
theorem Define_threshold_boundary_witness :
    sampleGadgets.constructorsSucceed = true ∧
    ∃ op, thresholdAssertion (Define sampleGadgets
        (sampleCircuit 1000 1600 300 250 1000 550) []).2 = some op ∧
      op = Op.assertIsLessEq 63 (sampleCircuit 1000 1600 300 250 1000 550).Threshold
        ((sampleCircuit 1000 1600 300 250 1000 550).Values.get 0 +
          (sampleCircuit 1000 1600 300 250 1000 550).Values.get 1) ∧
      ((sampleCircuit 1000 1600 300 250 1000 550).Threshold =
          (sampleCircuit 1000 1600 300 250 1000 550).Values.get 0 +
            (sampleCircuit 1000 1600 300 250 1000 550).Values.get 1 →
        op.holds sampleGadgets = true) ∧
      ((sampleCircuit 1000 1600 300 250 1000 550).Threshold =
          (sampleCircuit 1000 1600 300 250 1000 550).Values.get 0 +
            (sampleCircuit 1000 1600 300 250 1000 550).Values.get 1 + 1 →
        op.holds sampleGadgets = false) :=
  ⟨rfl, Define_threshold_boundary sampleGadgets (sampleCircuit 1000 1600 300 250 1000 550) rfl
    (by decide) (by decide) (by decide)⟩

/-! ## C14: left-padding with zero bytes -/

theorem padded_padded (a : List Nat) : padded (padded a) = padded a := by
  have h := padded_length a
  have hz : 8 * ((8 * ((a.length + 7) / 8) + 7) / 8) - 8 * ((a.length + 7) / 8) = 0 := by omega
  conv_lhs => rw [padded, h, hz]
  simp

theorem limbsOf_padded (a : List Nat) : limbsOf (padded a) = limbsOf a := by
  have h := padded_length a
  have hm : (8 * ((a.length + 7) / 8) + 7) / 8 = (a.length + 7) / 8 := by omega
  simp only [limbsOf, padded_padded, h, hm]

/-- C14. For every byte sequence `a` of length `n` and `k = 8 * ceil(n/8) - n`,
`ByteArrayToLimbs(a)` equals `ByteArrayToLimbs(z ++ a)` with `z` the sequence of `k` zero
bytes: the number of limbs and every limb are unchanged, and `a` is what follows the `k`
zero bytes, in its original order. -/
theorem ByteArrayToLimbs_zero_padding (a : List Nat) :
    ByteArrayToLimbs (List.replicate (8 * ((a.length + 7) / 8) - a.length) 0 ++ a) =
        ByteArrayToLimbs a ∧
      (List.replicate (8 * ((a.length + 7) / 8) - a.length) 0 ++ a).length =
        8 * ((a.length + 7) / 8) ∧
      (List.replicate (8 * ((a.length + 7) / 8) - a.length) 0 ++ a).drop
        (8 * ((a.length + 7) / 8) - a.length) = a := by
  refine ⟨?_, padded_length a, ?_⟩
  · have h := limbsOf_padded a
    rw [ByteArrayToLimbs_eq, ByteArrayToLimbs_eq]
    exact congrArg Except.ok h
  · rw [List.drop_left' (by simp)]

/-! ## C18: `ByteArrayToLimbs` is total -/

/-- C18. For every input, of any length `n`, the padded array has length `8 * ceil(n/8)`;
every read `array[8*i+j]` with `i < ceil(n/8)` and `j ≤ 7` and every write
`ret[len(ret)-1-i]` is within bounds (in the model an access out of bounds is an error); and
`ByteArrayToLimbs` returns its limbs, `ceil(n/8)` of them, with a nil error. -/
theorem ByteArrayToLimbs_total (a : List Nat) :
    (padded a).length = 8 * ((a.length + 7) / 8) ∧
      (∀ i j, i < (a.length + 7) / 8 → j ≤ 7 →
        8 * i + j < (padded a).length ∧
          indexAt (padded a) (8 * i + j) = .ok ((padded a).getD (8 * i + j) 0)) ∧
      (∀ (ret : List Nat) (i v : Nat), ret.length = (a.length + 7) / 8 →
        i < (a.length + 7) / 8 →
        ret.length - 1 - i < ret.length ∧
          setAt ret (ret.length - 1 - i) v = .ok (ret.set (ret.length - 1 - i) v)) ∧
      (∃ ret, ByteArrayToLimbs a = .ok ret ∧ ret.length = (a.length + 7) / 8) := by
  have hlen := padded_length a
  refine ⟨hlen, ?_, ?_, ⟨limbsOf a, ByteArrayToLimbs_eq a, limbsOf_length a⟩⟩
  · intro i j hi hj
    have hlt : 8 * i + j < (padded a).length := by rw [hlen]; omega
    exact ⟨hlt, indexAt_of_lt hlt⟩
  · intro ret i v hret hi
    have hlt : ret.length - 1 - i < ret.length := by omega
    exact ⟨hlt, by simp [setAt, hlt]⟩

/-! ## C19: byte packing is injective -/

theorem beValue_injective (a b : List Nat) (hlen : a.length = b.length)
    (ha : ∀ x ∈ a, x < 256) (hb : ∀ x ∈ b, x < 256) (h : beValue a = beValue b) : a = b := by
  have h1 := ((beValue_eq_iff_bytes a ha (beValue a)).mpr rfl).2
  have h2 := ((beValue_eq_iff_bytes b hb (beValue a)).mpr h).2
  apply List.ext_getElem hlen
  intro k hk1 hk2
  have e1 := h1 (a.length - 1 - k) (by omega)
  have e2 := h2 (b.length - 1 - k) (by omega)
  have i1 : a.length - 1 - (a.length - 1 - k) = k := by omega
  have i2 : b.length - 1 - (b.length - 1 - k) = k := by omega
  rw [i1, List.getD_eq_getElem _ _ hk1] at e1
  rw [i2, List.getD_eq_getElem _ _ hk2, ← hlen] at e2
  rw [e1, e2]

theorem limbsOf_injective (a b : List Nat) (hlen : a.length = b.length)
    (ha : ∀ x ∈ a, x < 256) (hb : ∀ x ∈ b, x < 256) (h : limbsOf a = limbsOf b) : a = b := by
  apply beValue_injective a b hlen ha hb
  rw [← limbsValue_limbsOf a ha, ← limbsValue_limbsOf b hb, h]

/-- C19. Two byte sequences of the same length (bytes in `0..255`) that differ are packed by
`ByteArrayToLimbs` into different limb sequences; so two 64-byte signatures that differ are
reconstructed by `BytesToSig` to different `(R, S)` limbs, and two 65-byte public keys that
differ in a byte other than byte 0 are reconstructed by `BytesToPubkey` to different `(X, Y)`
limbs. -/
theorem ByteArrayToLimbs_injective (env : Gadgets) (cs : ConstraintSystem)
    (hnew : env.newFieldFails = false) :
    (∀ a b : List Nat, a.length = b.length → (∀ x ∈ a, x < 256) → (∀ x ∈ b, x < 256) →
      a ≠ b → ByteArrayToLimbs a ≠ ByteArrayToLimbs b) ∧
    (∀ s1 s2 : List Nat, s1.length = 64 → s2.length = 64 → (∀ x ∈ s1, x < 256) →
      (∀ x ∈ s2, x < 256) → s1 ≠ s2 →
      ∃ g1 g2, (BytesToSig env s1 cs).1 = .ok g1 ∧ (BytesToSig env s2 cs).1 = .ok g2 ∧
        (g1.R.Limbs, g1.S.Limbs) ≠ (g2.R.Limbs, g2.S.Limbs)) ∧
    (∀ p1 p2 : List Nat, p1.length = 65 → p2.length = 65 → (∀ x ∈ p1, x < 256) →
      (∀ x ∈ p2, x < 256) → p1.drop 1 ≠ p2.drop 1 →
      ∃ k1 k2, (BytesToPubkey env p1 cs).1 = .ok k1 ∧ (BytesToPubkey env p2 cs).1 = .ok k2 ∧
        (k1.X.Limbs, k1.Y.Limbs) ≠ (k2.X.Limbs, k2.Y.Limbs)) := by
  refine ⟨?_, ?_, ?_⟩
  · intro a b hlen ha hb hne h
    rw [ByteArrayToLimbs_eq, ByteArrayToLimbs_eq] at h
    exact hne (limbsOf_injective a b hlen ha hb (Except.ok.inj h))
  · intro s1 s2 h1 h2 hb1 hb2 hne
    refine ⟨_, _, by rw [BytesToSig_apply env s1 h1 hnew cs],
      by rw [BytesToSig_apply env s2 h2 hnew cs], ?_⟩
    intro h
    simp only [Prod.mk.injEq, List.drop_zero] at h
    have hr := limbsOf_injective _ _ (by simp [h1, h2])
      (fun x hx => hb1 x (List.mem_of_mem_take hx))
      (fun x hx => hb2 x (List.mem_of_mem_take hx)) h.1
    have hs := limbsOf_injective _ _ (by simp [h1, h2])
      (fun x hx => hb1 x (List.mem_of_mem_drop hx))
      (fun x hx => hb2 x (List.mem_of_mem_drop hx)) h.2
    apply hne
    rw [← List.take_append_drop 32 s1, ← List.take_append_drop 32 s2, hr, hs]
  · intro p1 p2 h1 h2 hb1 hb2 hne
    refine ⟨_, _, by rw [BytesToPubkey_apply env p1 h1 hnew cs],
      by rw [BytesToPubkey_apply env p2 h2 hnew cs], ?_⟩
    intro h
    simp only [Prod.mk.injEq] at h
    have hx := limbsOf_injective _ _ (by simp [h1, h2])
      (fun x hx => hb1 x (List.mem_of_mem_take (List.mem_of_mem_drop hx)))
      (fun x hx => hb2 x (List.mem_of_mem_take (List.mem_of_mem_drop hx))) h.1
    have hy := limbsOf_injective _ _ (by simp [h1, h2])
      (fun x hx => hb1 x (List.mem_of_mem_drop hx))
      (fun x hx => hb2 x (List.mem_of_mem_drop hx)) h.2
    apply hne
    have e1 : p1.drop 1 = (p1.take 33).drop 1 ++ p1.drop 33 := by
      rw [List.drop_take]
      conv_lhs => rw [← List.take_append_drop 32 (p1.drop 1)]
      rw [List.drop_drop]
    have e2 : p2.drop 1 = (p2.take 33).drop 1 ++ p2.drop 33 := by
      rw [List.drop_take]
      conv_lhs => rw [← List.take_append_drop 32 (p2.drop 1)]
      rw [List.drop_drop]
    rw [e1, e2, hx, hy]

/-- C19 at two 3-byte sequences that differ in the last byte, and at two 64-byte signatures
that differ in the last byte only. -/
theorem ByteArrayToLimbs_injective_witness :
    sampleGadgets.newFieldFails = false ∧
    ByteArrayToLimbs [1, 2, 3] ≠ ByteArrayToLimbs [1, 2, 4] ∧
    ∃ g1 g2, (BytesToSig sampleGadgets (List.replicate 64 0) []).1 = .ok g1 ∧
      (BytesToSig sampleGadgets (List.replicate 63 0 ++ [1]) []).1 = .ok g2 ∧
      (g1.R.Limbs, g1.S.Limbs) ≠ (g2.R.Limbs, g2.S.Limbs) :=
  ⟨rfl,
    (ByteArrayToLimbs_injective sampleGadgets [] rfl).1 [1, 2, 3] [1, 2, 4] rfl (by decide)
      (by decide) (by decide),
    (ByteArrayToLimbs_injective sampleGadgets [] rfl).2.1 (List.replicate 64 0)
      (List.replicate 63 0 ++ [1]) (by decide) (by decide) (by decide) (by decide)
      (by decide)⟩

/-! ## C13: the order of emission in `Define` -/

theorem addressOps_kinds (env : Gadgets) (PubBytes : List Nat) (ethAddr : Nat) :
    (addressOps env PubBytes ethAddr).map Op.kind =
      [OpKind.keccakNew, OpKind.keccakSum, OpKind.toBinary 160] ++
        (List.range 20).reverse.flatMap
          (fun _ => OpKind.toBinary 8 :: List.replicate 8 OpKind.assertIsEqual) := by
  simp only [addressOps, List.map_append, List.map_cons, List.map_nil, Op.kind,
    List.map_flatMap, addressRoundOps, List.map_map]
  congr 2

theorem recordOps_kinds (env : Gadgets) (c : ProofOfSumCircuit) (i : Fin SumMaxItems) :
    (recordOps env c i).map Op.kind = recordKinds := by
  simp only [recordOps, validateSigOps, hashOps, ecdsaOps, msgOps, pubkeyOps, sigOps,
    List.map_append, addressOps_kinds, List.map_cons, List.map_nil, Op.kind, bitLen_time,
    recordKinds, List.append_assoc, List.cons_append, List.nil_append]

theorem defineOps_kinds (env : Gadgets) (c : ProofOfSumCircuit) :
    (defineOps env c).map Op.kind = defineKinds := by
  simp only [defineOps, List.map_append, recordOps_kinds, List.map_cons, List.map_nil, Op.kind,
    bitLen_sum, defineKinds]
  rfl

/-- C13. With the gadget constructors succeeding, `Define` returns nil after emitting, in this
order: the time comparator; for record 0 and then record 1 the operations of `validateSig`
(the `uints` constructor, the commitment hash, the ECDSA verification, the address check),
the lower window assertion and the upper window assertion; and only then the sum comparator
and the single threshold assertion on `0 + Values[0] + Values[1]`. The kinds of the emitted
operations are the same list for every assignment, so no assertion depends on witness
values. -/
theorem Define_emission_order (env : Gadgets) (c : ProofOfSumCircuit)
    (henv : env.constructorsSucceed = true) :
    SumMaxItems = 2 ∧
    Define env c [] = (.ok (),
      [Op.newBoundedComparator 1200] ++
      (validateSigOps env (c.PayloadHashs.get 0).toList (c.Timestamps.get 0) (c.Values.get 0)
          (c.SigBytes.get 0).toList (c.PubBytes.get 0).toList c.EthAddress ++
        [Op.assertIsLessEq 11 c.StartTime (c.Timestamps.get 0),
          Op.assertIsLessEq 11 (c.Timestamps.get 0) (apiAdd c.StartTime 600)]) ++
      (validateSigOps env (c.PayloadHashs.get 1).toList (c.Timestamps.get 1) (c.Values.get 1)
          (c.SigBytes.get 1).toList (c.PubBytes.get 1).toList c.EthAddress ++
        [Op.assertIsLessEq 11 c.StartTime (c.Timestamps.get 1),
          Op.assertIsLessEq 11 (c.Timestamps.get 1) (apiAdd c.StartTime 600)]) ++
      [Op.newBoundedComparator (2 ^ 62),
        Op.assertIsLessEq 63 c.Threshold
          (apiAdd (apiAdd 0 (c.Values.get 0)) (c.Values.get 1))]) ∧
    (∀ (ph : List Nat) (t v : Nat) (sig pub : List Nat) (addr : Nat),
      validateSigOps env ph t v sig pub addr =
        [Op.uintsNew] ++ hashOps ph t v ++ ecdsaOps (env.sha256 (hashMessage ph t v)) sig pub ++
          addressOps env pub addr) ∧
    (∀ c2 : ProofOfSumCircuit, (Define env c2 []).2.map Op.kind = defineKinds) := by
  refine ⟨rfl, ?_, fun _ _ _ _ _ _ => rfl, ?_⟩
  · rw [Define_apply env c henv [], List.nil_append]
    simp only [defineOps, recordOps, bitLen_time, bitLen_sum]
    rfl
  · intro c2
    rw [Define_apply env c2 henv [], List.nil_append]
    exact defineOps_kinds env c2

/-- C13 at the sample assignment: the kinds of the operations `Define` emits. -/
theorem Define_emission_order_witness :
    (Define sampleGadgets (sampleCircuit 1000 1600 300 250 1000 500) []).2.map Op.kind =
      defineKinds :=
  (Define_emission_order sampleGadgets (sampleCircuit 0 0 0 0 0 0) rfl).2.2.2
    (sampleCircuit 1000 1600 300 250 1000 500)

/-! ## C15: byte 0 of the public key is never read -/

/-- C15. Two calls of `validateSig` whose arguments differ only in byte 0 of the public key
return the same result and leave the same constraint system: the public key reconstructed by
`BytesToPubkey` is the same, the bytes written to Keccak-256 (`PubBytes[1:]`) are the same, and
so every emitted operation is the same and is satisfied in the one call exactly when it is in
the other. -/
theorem validateSig_ignores_byte_zero (env : Gadgets) (PayloadHash : List Nat)
    (Timestamp Value : Nat) (SigBytes : List Nat) (b0 b1 : Nat) (rest : List Nat)
    (ethAddr : Nat) (cs : ConstraintSystem) :
    BytesToPubkey env (b0 :: rest) cs = BytesToPubkey env (b1 :: rest) cs ∧
    sliceFrom (b0 :: rest) 1 = .ok rest ∧ sliceFrom (b1 :: rest) 1 = .ok rest ∧
    validateSig env PayloadHash Timestamp Value SigBytes (b0 :: rest) ethAddr cs =
      validateSig env PayloadHash Timestamp Value SigBytes (b1 :: rest) ethAddr cs ∧
    ((∀ op ∈ (validateSig env PayloadHash Timestamp Value SigBytes (b0 :: rest) ethAddr cs).2,
        op.holds env = true) ↔
      (∀ op ∈ (validateSig env PayloadHash Timestamp Value SigBytes (b1 :: rest) ethAddr cs).2,
        op.holds env = true)) := by
  have hs0 : sliceFrom (b0 :: rest) 1 = .ok rest := by
    rw [sliceFrom_ok _ 1 (by simp)]; rfl
  have hs1 : sliceFrom (b1 :: rest) 1 = .ok rest := by
    rw [sliceFrom_ok _ 1 (by simp)]; rfl
  have hpk : BytesToPubkey env (b0 :: rest) = BytesToPubkey env (b1 :: rest) := by
    simp only [BytesToPubkey, sliceFrom, sliceOf, List.length_cons, List.take_succ_cons,
      List.drop_succ_cons]
  have haddr : validateAddress env (b0 :: rest) ethAddr =
      validateAddress env (b1 :: rest) ethAddr := by
    simp only [validateAddress, hs0, hs1]
  have hv : validateSig env PayloadHash Timestamp Value SigBytes (b0 :: rest) ethAddr =
      validateSig env PayloadHash Timestamp Value SigBytes (b1 :: rest) ethAddr := by
    simp only [validateSig, ecdsaVerification, hpk, haddr]
  refine ⟨by rw [hpk], hs0, hs1, by rw [hv], by rw [hv]⟩

/-! ## C16: the window only bounds the spread of the timestamps -/

theorem window_ops_imp_spread (env : Gadgets) (s t0 t1 : Nat) (ht0 : t0 < 2 ^ 64)
    (ht1 : t1 < 2 ^ 64)
    (h0 : (Op.assertIsLessEq 11 s t0).holds env = true)
    (h1 : (Op.assertIsLessEq 11 t0 (apiAdd s LimitSeconds)).holds env = true)
    (h2 : (Op.assertIsLessEq 11 s t1).holds env = true)
    (h3 : (Op.assertIsLessEq 11 t1 (apiAdd s LimitSeconds)).holds env = true) :
    t0 ≤ t1 + 600 ∧ t1 ≤ t0 + 600 := by
  simp only [Op.holds, decide_eq_true_eq, apiSub, apiAdd, LimitSeconds, fieldModulus]
    at h0 h1 h2 h3
  norm_num at h0 h1 h2 h3
  omega

theorem windowOps_withStartTime (env : Gadgets) (c : ProofOfSumCircuit)
    (henv : env.constructorsSucceed = true) (s : Nat) :
    (lessEqAssertions (Define env (withStartTime c s) []).2).take 4 =
      [Op.assertIsLessEq 11 s (c.Timestamps.get 0),
        Op.assertIsLessEq 11 (c.Timestamps.get 0) (apiAdd s LimitSeconds),
        Op.assertIsLessEq 11 s (c.Timestamps.get 1),
        Op.assertIsLessEq 11 (c.Timestamps.get 1) (apiAdd s LimitSeconds)] := by
  rw [(lessEqAssertions_Define env (withStartTime c s) henv).2]
  rfl

/-- C16. For timestamps in `[0, 2^64)`, there is a field element `StartTime` for which the four
window assertions emitted by `Define` (the first four comparator assertions, each the range
check of a difference modulo `p` on 11 bits) all hold if and only if the two timestamps are at
most 600 apart. -/
theorem Define_window_spread (env : Gadgets) (c : ProofOfSumCircuit)
    (henv : env.constructorsSucceed = true) (hT0 : c.Timestamps.get 0 < 2 ^ 64)
    (hT1 : c.Timestamps.get 1 < 2 ^ 64) :
    (∃ s, s < fieldModulus ∧
      ∀ op ∈ (lessEqAssertions (Define env (withStartTime c s) []).2).take 4,
        op.holds env = true) ↔
      (c.Timestamps.get 0 ≤ c.Timestamps.get 1 + 600 ∧
        c.Timestamps.get 1 ≤ c.Timestamps.get 0 + 600) := by
  constructor
  · rintro ⟨s, _, h⟩
    rw [windowOps_withStartTime env c henv s] at h
    exact window_ops_imp_spread env s _ _ hT0 hT1 (h _ (by simp)) (h _ (by simp))
      (h _ (by simp)) (h _ (by simp))
  · rintro ⟨h01, h10⟩
    refine ⟨min (c.Timestamps.get 0) (c.Timestamps.get 1), ?_, ?_⟩
    · have : min (c.Timestamps.get 0) (c.Timestamps.get 1) < 2 ^ 64 := by omega
      unfold fieldModulus
      omega
    · rw [windowOps_withStartTime env c henv, timeUpper_small _ (by omega)]
      simp only [List.mem_cons, List.mem_singleton, List.not_mem_nil, or_false,
        forall_eq_or_imp, forall_eq]
      rw [lessEq_holds_iff env 11 _ _ (by omega) (by omega) (by omega),
        lessEq_holds_iff env 11 _ _ (by omega) (by omega) (by omega),
        lessEq_holds_iff env 11 _ _ (by omega) (by omega) (by omega),
        lessEq_holds_iff env 11 _ _ (by omega) (by omega) (by omega)]
      omega

/-- C16 at the timestamps `1000` and `1600`. -/
theorem Define_window_spread_witness :
    sampleGadgets.constructorsSucceed = true ∧
    ((∃ s, s < fieldModulus ∧
      ∀ op ∈ (lessEqAssertions (Define sampleGadgets
          (withStartTime (sampleCircuit 1000 1600 300 250 0 500) s) []).2).take 4,
        op.holds sampleGadgets = true) ↔
      ((sampleCircuit 1000 1600 300 250 0 500).Timestamps.get 0 ≤
          (sampleCircuit 1000 1600 300 250 0 500).Timestamps.get 1 + 600 ∧
        (sampleCircuit 1000 1600 300 250 0 500).Timestamps.get 1 ≤
          (sampleCircuit 1000 1600 300 250 0 500).Timestamps.get 0 + 600)) :=
  ⟨rfl, Define_window_spread sampleGadgets (sampleCircuit 1000 1600 300 250 0 500) rfl
    (by decide) (by decide)⟩

/-! ## C17: `Define` returns no length error -/

theorem uintsNew_fails (env : Gadgets) (h : env.uintsNewFails = true) (cs : ConstraintSystem) :
    uintsNew env cs = (.error .gadgetInit, cs) := by
  simp [uintsNew, h]
  rfl

theorem sha2New_fails (env : Gadgets) (h : env.sha2NewFails = true) (cs : ConstraintSystem) :
    sha2New env cs = (.error .gadgetInit, cs) := by
  simp [sha2New, h]
  rfl

theorem NewField_fails (env : Gadgets) (t : EmulatedField) (h : env.newFieldFails = true)
    (cs : ConstraintSystem) : NewField env t cs = (.error .gadgetInit, cs) := by
  simp [NewField, h]
  rfl

theorem NewLegacyKeccak256_fails (env : Gadgets) (h : env.keccakNewFails = true)
    (cs : ConstraintSystem) : NewLegacyKeccak256 env cs = (.error .gadgetInit, cs) := by
  simp [NewLegacyKeccak256, h]
  rfl

theorem Builder.bind_fst_error {α β : Type} {m : Builder α} {f : α → Builder β}
    {cs : ConstraintSystem} {e : BuildError} (h : (m cs).1 = .error e) :
    ((m >>= f) cs).1 = .error e := by
  rcases hm : m cs with ⟨r, cs1⟩
  rw [hm] at h
  simp only at h
  subst h
  rw [Builder.bind_error hm]

theorem validateSig_ok_or_gadgetInit (env : Gadgets) (PayloadHash : List Nat)
    (Timestamp Value : Nat) (SigBytes PubBytes : List Nat) (ethAddr : Nat)
    (hph : PayloadHash.length = 32) (hsig : SigBytes.length = 64) (hpub : PubBytes.length = 65)
    (cs : ConstraintSystem) :
    (validateSig env PayloadHash Timestamp Value SigBytes PubBytes ethAddr cs).1 = .ok () ∨
      (validateSig env PayloadHash Timestamp Value SigBytes PubBytes ethAddr cs).1 =
        .error .gadgetInit := by
  cases h1 : env.uintsNewFails with
  | true =>
    right
    simp only [validateSig, if_neg (not_not.mpr hph)]
    apply Builder.bind_fst_error
    rw [uintsNew_fails env h1]
  | false =>
    cases h2 : env.sha2NewFails with
    | true =>
      right
      simp only [validateSig, if_neg (not_not.mpr hph)]
      rw [Builder.bind_ok (uintsNew_apply env h1 _)]
      apply Builder.bind_fst_error
      simp only [hashSumInput]
      apply Builder.bind_fst_error
      rw [sha2New_fails env h2]
    | false =>
      cases h4 : env.newFieldFails with
      | true =>
        right
        simp only [validateSig, if_neg (not_not.mpr hph)]
        rw [Builder.bind_ok (uintsNew_apply env h1 _),
          Builder.bind_ok (hashSumInput_apply env _ _ _ _ h2 _)]
        apply Builder.bind_fst_error
        simp only [ecdsaVerification]
        apply Builder.bind_fst_error
        simp only [BytesToHash]
        rw [Builder.bind_ok (Builder.lift_ok (ByteArrayToLimbs_eq _) _)]
        apply Builder.bind_fst_error
        rw [NewField_fails env _ h4]
      | false =>
        cases h3 : env.keccakNewFails with
        | true =>
          right
          simp only [validateSig, if_neg (not_not.mpr hph)]
          rw [Builder.bind_ok (uintsNew_apply env h1 _),
            Builder.bind_ok (hashSumInput_apply env _ _ _ _ h2 _),
            Builder.bind_ok (ecdsaVerification_apply env _ _ _ hsig hpub h4 _)]
          simp only [validateAddress]
          apply Builder.bind_fst_error
          rw [NewLegacyKeccak256_fails env h3]
        | false =>
          left
          rw [validateSig_apply env _ _ _ _ _ _
            ((constructorsSucceed_iff env).mpr ⟨h1, h2, h3, h4⟩) hph hsig hpub cs]

theorem defineLoop_ok_or_gadgetInit (env : Gadgets) (c : ProofOfSumCircuit)
    (timeCmp : BoundedComparator) (timeUpper : Nat) :
    ∀ (is : List (Fin SumMaxItems)) (sum : Nat) (cs : ConstraintSystem),
      (∃ v, (defineLoop env c timeCmp timeUpper is sum cs).1 = .ok v) ∨
        (defineLoop env c timeCmp timeUpper is sum cs).1 = .error .gadgetInit := by
  intro is
  induction is with
  | nil => intro sum cs; exact Or.inl ⟨sum, rfl⟩
  | cons i rest ih =>
    intro sum cs
    simp only [defineLoop]
    rcases hv : validateSig env (c.PayloadHashs.get i).toList (c.Timestamps.get i)
      (c.Values.get i) (c.SigBytes.get i).toList (c.PubBytes.get i).toList c.EthAddress cs
      with ⟨r, cs1⟩
    have hr := validateSig_ok_or_gadgetInit env (c.PayloadHashs.get i).toList
      (c.Timestamps.get i) (c.Values.get i) (c.SigBytes.get i).toList
      (c.PubBytes.get i).toList c.EthAddress (Mathlib.Vector.toList_length _)
      (Mathlib.Vector.toList_length _) (Mathlib.Vector.toList_length _) cs
    rw [hv] at hr
    simp only at hr
    rcases hr with hr | hr
    · subst hr
      rw [Builder.bind_ok hv, Builder.bind_ok (AssertIsLessEq_apply _ _ _ _),
        Builder.bind_ok (AssertIsLessEq_apply _ _ _ _)]
      exact ih _ _
    · subst hr
      right
      rw [Builder.bind_error hv]

theorem Define_ok_or_gadgetInit (env : Gadgets) (c : ProofOfSumCircuit)
    (cs : ConstraintSystem) :
    (Define env c cs).1 = .ok () ∨ (Define env c cs).1 = .error .gadgetInit := by
  simp only [Define]
  rw [Builder.bind_ok (NewBoundedComparator_apply _ _)]
  rcases hl : defineLoop env c { absDiffUppBitLen := bitLen (LimitSeconds * 2) }
    (apiAdd c.StartTime LimitSeconds) (List.finRange SumMaxItems) 0
    (cs ++ [Op.newBoundedComparator (LimitSeconds * 2)]) with ⟨r, cs1⟩
  have hr := defineLoop_ok_or_gadgetInit env c { absDiffUppBitLen := bitLen (LimitSeconds * 2) }
    (apiAdd c.StartTime LimitSeconds) (List.finRange SumMaxItems) 0
    (cs ++ [Op.newBoundedComparator (LimitSeconds * 2)])
  rw [hl] at hr
  simp only at hr
  rcases hr with ⟨v, hr⟩ | hr
  · subst hr
    left
    rw [Builder.bind_ok hl, Builder.bind_ok (NewBoundedComparator_apply _ _),
      AssertIsLessEq_apply]
  · subst hr
    right
    rw [Builder.bind_error hl]

/-- C17. `Define` passes `validateSig` the fixed-size arrays of 32, 64 and 65 bytes, so for
every assignment and every behaviour of the gadget constructors it returns none of the three
length errors (and does not panic on an index): it returns nil or the error of a constructor;
and with the constructors succeeding it returns nil. -/
theorem Define_no_length_error (env : Gadgets) (c : ProofOfSumCircuit) (cs : ConstraintSystem) :
    (∀ i : Fin SumMaxItems, (c.PayloadHashs.get i).toList.length = 32 ∧
      (c.SigBytes.get i).toList.length = 64 ∧ (c.PubBytes.get i).toList.length = 65) ∧
    (Define env c cs).1 ≠ .error .invalidPayloadHashLength ∧
    (Define env c cs).1 ≠ .error .invalidSigLength ∧
    (Define env c cs).1 ≠ .error .invalidPubkeyLength ∧
    (Define env c cs).1 ≠ .error .outOfRange ∧
    (env.constructorsSucceed = true → (Define env c cs).1 = .ok ()) := by
  refine ⟨fun i => ⟨Mathlib.Vector.toList_length _, Mathlib.Vector.toList_length _,
    Mathlib.Vector.toList_length _⟩, ?_, ?_, ?_, ?_, ?_⟩
  · rcases Define_ok_or_gadgetInit env c cs with h | h <;> rw [h] <;> simp
  · rcases Define_ok_or_gadgetInit env c cs with h | h <;> rw [h] <;> simp
  · rcases Define_ok_or_gadgetInit env c cs with h | h <;> rw [h] <;> simp
  · rcases Define_ok_or_gadgetInit env c cs with h | h <;> rw [h] <;> simp
  · intro henv
    rw [Define_apply env c henv cs]

/-- C17 at the sample assignment: `Define` returns nil. -/
theorem Define_no_length_error_witness :
    (Define sampleGadgets (sampleCircuit 1000 1600 300 250 1000 500) []).1 = .ok () :=
  (Define_no_length_error sampleGadgets (sampleCircuit 1000 1600 300 250 1000 500) []).2.2.2.2.2
    rfl

end Delen
